import Mathlib

/-!
# GitCtrl: an interactive Git assistant (`src/GitCtrl.go`)

A shallow embedding of the program in Lean 4.

* A Go `string` is a sequence of bytes (`GoString`); every index and length
  is a byte index, as in Go.
* The functions of the Go standard library the program calls (`strings`,
  `strconv`, `path/filepath`) are written out after their Go definitions,
  Unix path separator and 64-bit `int`.
* The session (`GitAssistant`) is threaded through a state monad `M` together
  with the unread standard input, the log of external commands that were
  started and the text written to standard output.  What the outside world
  answers (command outcomes, `os.Stat`, the clock, the iteration order of a
  map, ...) is an `Env`: an arbitrary script of answers, so a statement proved
  for every `Env` holds whatever the outside world does.
* A Go run-time panic (index out of range) ends a computation with `none`.
-/

namespace GitCtrl

/-! ## Go strings -/

/-- A Go string: a sequence of bytes. -/
abbrev GoString := List UInt8

/-- The bytes (UTF-8) of a string literal of the source. -/
def lit (s : String) : GoString := s.data.flatMap String.utf8EncodeChar

/-- A Go `error` value: `none` is `nil`, `some msg` an error with text `msg`. -/
abbrev GoError := Option GoString

/-! ## Package `strings` -/

/-- The six ASCII bytes that `unicode.IsSpace` accepts. -/
def isAsciiSpace (b : UInt8) : Bool :=
  b = 9 || b = 10 || b = 11 || b = 12 || b = 13 || b = 32

/-- Removes leading white space: repeatedly drops one rune `r` with
`unicode.IsSpace r` (the ASCII ones, U+0085, U+00A0, U+1680, U+2000..U+200A,
U+2028, U+2029, U+202F, U+205F, U+3000) from the front. -/
def trimLeftSpace : GoString → GoString
  | [] => []
  | 0xC2 :: 0x85 :: r => trimLeftSpace r
  | 0xC2 :: 0xA0 :: r => trimLeftSpace r
  | 0xE1 :: 0x9A :: 0x80 :: r => trimLeftSpace r
  | 0xE2 :: 0x80 :: c :: r =>
    if (0x80 ≤ c && c ≤ 0x8A) || c = 0xA8 || c = 0xA9 || c = 0xAF then trimLeftSpace r
    else 0xE2 :: 0x80 :: c :: r
  | 0xE2 :: 0x81 :: 0x9F :: r => trimLeftSpace r
  | 0xE3 :: 0x80 :: 0x80 :: r => trimLeftSpace r
  | b :: r => if isAsciiSpace b then trimLeftSpace r else b :: r

/-- Removes trailing white space, on the reversed byte sequence: the same
runes as `trimLeftSpace`, their encodings read backwards. -/
def trimRightSpaceRev : GoString → GoString
  | [] => []
  | 0x85 :: 0xC2 :: r => trimRightSpaceRev r
  | 0xA0 :: 0xC2 :: r => trimRightSpaceRev r
  | 0x80 :: 0x9A :: 0xE1 :: r => trimRightSpaceRev r
  | 0x9F :: 0x81 :: 0xE2 :: r => trimRightSpaceRev r
  | 0x80 :: 0x80 :: 0xE3 :: r => trimRightSpaceRev r
  | c :: 0x80 :: 0xE2 :: r =>
    if (0x80 ≤ c && c ≤ 0x8A) || c = 0xA8 || c = 0xA9 || c = 0xAF then trimRightSpaceRev r
    else if isAsciiSpace c then trimRightSpaceRev (0x80 :: 0xE2 :: r)
    else c :: 0x80 :: 0xE2 :: r
  | b :: r => if isAsciiSpace b then trimRightSpaceRev r else b :: r

/-- Go `strings.TrimSpace`: the string without leading and trailing white space. -/
def TrimSpace (s : GoString) : GoString :=
  (trimRightSpaceRev (trimLeftSpace s).reverse).reverse

/-- Splits at every occurrence of the byte `sep`; `cur` holds the bytes of the
piece being read, in reverse. -/
def splitAux (sep : UInt8) : GoString → GoString → List GoString
  | [], cur => [cur.reverse]
  | b :: r, cur => if b = sep then cur.reverse :: splitAux sep r [] else splitAux sep r (b :: cur)

/-- Go `strings.Split(s, sep)` for a separator of one byte (the program
splits at "\n" and at " " only): the pieces between the separators, one more
than there are separators, so `Split "" sep` is one empty piece. -/
def Split (s : GoString) (sep : UInt8) : List GoString := splitAux sep s []

/-- Go `strings.Join`. -/
def Join : List GoString → GoString → GoString
  | [], _ => []
  | [a], _ => a
  | a :: b :: r, sep => a ++ sep ++ Join (b :: r) sep

/-- Go `strings.HasPrefix`. -/
def HasPrefix (s pre : GoString) : Bool := pre.isPrefixOf s

/-- Go `strings.Contains`. -/
def Contains (s sub : GoString) : Bool := s.tails.any (fun t => sub.isPrefixOf t)

/-- Go `strings.Repeat`. -/
def Repeat (s : GoString) (n : Nat) : GoString := (List.replicate n s).flatten

/-- Go `strings.ReplaceAll(s, old, new)` for `old` and `new` of one byte
each (the program replaces " " by "-" only). -/
def ReplaceAll (s : GoString) (old new : UInt8) : GoString :=
  s.map (fun b => if b = old then new else b)

/-- Go `strings.ToLower`.  A string of ASCII bytes has its letters `A`..`Z`
mapped to `a`..`z`; any other string goes through the Unicode case tables,
which are the parameter `unicodeLower`. -/
def ToLower (unicodeLower : GoString → GoString) (s : GoString) : GoString :=
  if s.all (fun b => b < 0x80) then
    s.map (fun b => if 65 ≤ b && b ≤ 90 then b + 32 else b)
  else unicodeLower s

/-! ## Package `strconv` -/

/-- Go `strconv.Itoa`. -/
def Itoa (i : Int) : GoString :=
  if i < 0 then lit "-" ++ lit (String.mk (Nat.toDigits 10 i.natAbs))
  else lit (String.mk (Nat.toDigits 10 i.natAbs))

/-- The two errors of `strconv`: `ErrSyntax` and `ErrRange`. -/
inductive NumError where
  | invalid
  | outOfRange
deriving DecidableEq, Repr

/-- The value of a non-empty sequence of decimal digits, `none` when the
sequence is empty or holds another byte; `acc` is the value read so far. -/
def parseDigits : GoString → Option Nat → Option Nat
  | [], acc => acc
  | b :: r, acc =>
    if 48 ≤ b && b ≤ 57 then parseDigits r (some (acc.getD 0 * 10 + (b.toNat - 48))) else none

/-- The size of Go's `int`, in bits. -/
def intSize : Nat := 64

/-- Go `strconv.Atoi`: an optional sign followed by decimal digits.  A
malformed text gives `(0, ErrSyntax)`; a value that does not fit `int` gives
the nearest bound of `int` and `ErrRange`. -/
def Atoi (s : GoString) : Int × Option NumError :=
  let neg : Bool := s.head? = some 45
  let body : GoString := if s.head? = some 45 || s.head? = some 43 then s.tail else s
  match parseDigits body none with
  | none => (0, some NumError.invalid)
  | some un =>
    if !neg && 2 ^ (intSize - 1) ≤ un then (2 ^ (intSize - 1) - 1, some NumError.outOfRange)
    else if neg && 2 ^ (intSize - 1) < un then (-(2 ^ (intSize - 1)), some NumError.outOfRange)
    else (if neg then -(un : Int) else (un : Int), none)

/-! ## Package `path/filepath` (Unix) -/

/-- Scans the reversed path for the last dot before any separator; `ext`
holds the bytes after that position, in order. -/
def extAux : GoString → GoString → GoString
  | [], _ => []
  | b :: r, ext => if b = 47 then [] else if b = 46 then b :: ext else extAux r (b :: ext)

/-- Go `filepath.Ext`: the suffix beginning at the final dot in the final
element of the path, empty if there is no dot. -/
def Ext (path : GoString) : GoString := extAux path.reverse []

/-- Go `filepath.Base`: the last element of the path, trailing separators
removed; "." for the empty path and "/" for a path of separators only. -/
def Base (path : GoString) : GoString :=
  if path = [] then lit "."
  else
    let p := (path.reverse.dropWhile (fun b => b = 47)).reverse
    let e := (p.reverse.takeWhile (fun b => b != 47)).reverse
    if e = [] then lit "/" else e

/-! ## Output formatter (ANSI colours) -/

def ColorReset : GoString := lit "\x1b[0m"

def ColorRed : GoString := lit "\x1b[31m"

def ColorGreen : GoString := lit "\x1b[32m"

def ColorCyan : GoString := lit "\x1b[36m"

def ColorBold : GoString := lit "\x1b[1m"

def colorize (color text : GoString) : GoString := color ++ text ++ ColorReset

def green (text : GoString) : GoString := colorize ColorGreen text

def red (text : GoString) : GoString := colorize ColorRed text

def cyan (text : GoString) : GoString := colorize ColorCyan text

def bold (text : GoString) : GoString := ColorBold ++ text ++ ColorReset

/-! ## The session -/

/-- The Go struct `GitAssistant`. -/
structure GitAssistant where
  workingDir : GoString
  quickCommits : List GoString
  lastActions : List GoString
deriving DecidableEq

/-- The eight predefined commit messages of `NewGitAssistant`. -/
def quickCommitTemplates : List GoString :=
  [lit "🚀 Mise à jour rapide",
   lit "🐛 Correction de bug",
   lit "✨ Nouvelle fonctionnalité",
   lit "📝 Documentation",
   lit "♻️ Refactoring",
   lit "🎨 Améliorations UI",
   lit "⚡ Performance",
   lit "🔧 Configuration"]

/-- Go `NewGitAssistant`; `wd` is what `os.Getwd` returned (when `os.Getwd`
fails the process stops in `log.Fatal` and no session exists). -/
def NewGitAssistant (wd : GoString) : GitAssistant :=
  { workingDir := wd, quickCommits := quickCommitTemplates, lastActions := [] }

/-- The entry `fmt.Sprintf("[%s] %s", time.Now().Format("15:04"), action)`;
`now` is the formatted time. -/
def historyEntry (now action : GoString) : GoString :=
  lit "[" ++ now ++ lit "] " ++ action

/-- Go `addToHistory` on the session; `now` is `time.Now().Format("15:04")`. -/
def GitAssistant.addToHistory (ga : GitAssistant) (now action : GoString) : GitAssistant :=
  let appended := ga.lastActions ++ [historyEntry now action]
  { ga with lastActions := if appended.length > 10 then appended.drop 1 else appended }

/-! ## The outside world and the state monad -/

/-- What `os.Stat` answered: no error, an error with `os.IsNotExist`, or
another error. -/
inductive StatResult where
  | found
  | notExist
  | failed
deriving DecidableEq, Repr

/-- An element of the slice sorted in `analyzeFileTypes`. -/
structure kv where
  Key : GoString
  Value : Int
deriving DecidableEq

/-- The answers of the outside world, as scripts.
* `exec k`: combined output and error of the `k`-th external command started
  (counting from 0);
* `stat k`: the outcome of the `k`-th `os.Stat`;
* `abs k p`: what `filepath.Abs p` returns after `k` calls of `os.Stat`;
* `now k layout`: the `k`-th reading of the clock, formatted with `layout`;
* `unicodeLower`: the Unicode case tables used by `strings.ToLower`;
* `mapRange`: the order in which `range` visits the entries of a map;
* `sortSlice`: the slice after `sort.Slice` with the comparison
  `sorted[i].Value > sorted[j].Value`. -/
structure Env where
  exec : Nat → GoString × GoError
  stat : Nat → StatResult
  abs : Nat → GoString → GoString × GoError
  now : Nat → GoString → GoString
  unicodeLower : GoString → GoString
  mapRange : List kv → List kv
  sortSlice : List kv → List kv

/-- An external command that was started: `cmd.Dir`, the command name and
its arguments. -/
structure Cmd where
  dir : GoString
  name : GoString
  args : List GoString
deriving DecidableEq

/-- The state of a run: the session, the lines of standard input not read
yet, the external commands started so far (oldest first), the chunks written
to standard output (oldest first) and how many times `os.Stat` and the clock
were consulted. -/
structure State where
  ga : GitAssistant
  stdin : List GoString
  log : List Cmd
  out : List GoString
  nStat : Nat
  nClock : Nat
deriving DecidableEq

/-- A computation of the program: from a state to a result and the state
reached; the result `none` is a Go run-time panic. -/
def M (α : Type) : Type := State → Option α × State

/-- The computation that returns `a` and leaves the state as it is. -/
def M.pure {α : Type} (a : α) : M α := fun s => (some a, s)

/-- Runs `m`, then `f` on its result; a panic of `m` ends the computation. -/
def M.bind {α β : Type} (m : M α) (f : α → M β) : M β := fun s =>
  match m s with
  | (some a, s1) => f a s1
  | (none, s1) => (none, s1)

instance : Monad M where
  pure := M.pure
  bind := M.bind

/-- A run-time panic. -/
def goPanic {α : Type} : M α := fun s => (none, s)

/-- The session. -/
def getGA : M GitAssistant := fun s => (some s.ga, s)

/-- An assignment to fields of the session. -/
def modifyGA (f : GitAssistant → GitAssistant) : M Unit := fun s =>
  (some (), { s with ga := f s.ga })

/-- One call of `fmt.Print`, `fmt.Println` or `fmt.Printf` writing `t`. -/
def say (t : GoString) : M Unit := fun s => (some (), { s with out := s.out ++ [t] })

/-- One print call for each element of `ts`, in order. -/
def sayAll (ts : List GoString) : M Unit := fun s => (some (), { s with out := s.out ++ ts })

/-- The element `l[i]`, with Go's panic when the index is out of range. -/
def index {α : Type} (l : List α) (i : Int) : M α :=
  if i < 0 then goPanic
  else match l.get? i.toNat with
    | some a => pure a
    | none => goPanic

/-- The slice expression `s[i:]`, with Go's panic when `i > len(s)`. -/
def sliceFrom (s : GoString) (i : Nat) : M GoString :=
  if s.length < i then goPanic else pure (s.drop i)

/-- The text of an error for the verb `%v`. -/
def errText (e : GoError) : GoString := e.getD (lit "<nil>")

/-- One reading of the clock: `time.Now().Format(layout)`. -/
def timeNow (env : Env) (layout : GoString) : M GoString := fun s =>
  (some (env.now s.nClock layout), { s with nClock := s.nClock + 1 })

/-- Go `os.Stat`, the file information dropped.  The path consulted is not
part of the model: `env.stat k` is the answer to the `k`-th call. -/
def osStat (env : Env) : M StatResult := fun s =>
  (some (env.stat s.nStat), { s with nStat := s.nStat + 1 })

/-- Go `filepath.Abs`. -/
def filepathAbs (env : Env) (path : GoString) : M (GoString × GoError) := fun s =>
  (some (env.abs s.nStat path), s)

/-- Go `getUserInput`: the next line of standard input without surrounding
white space; the empty string at end of input. -/
def getUserInput : M GoString := fun s =>
  (some (TrimSpace (s.stdin.headD [])), { s with stdin := s.stdin.tail })

/-- Go `runCommand`: starts `command args...` in the working directory and
returns its combined output and its error. -/
def runCommand (env : Env) (command : GoString) (args : List GoString) :
    M (GoString × GoError) := fun s =>
  (some (env.exec s.log.length),
   { s with log := s.log ++ [{ dir := s.ga.workingDir, name := command, args := args }] })

/-- Go `addToHistory`. -/
def addToHistory (env : Env) (action : GoString) : M Unit := do
  let now ← timeNow env (lit "15:04")
  modifyGA (fun ga => ga.addToHistory now action)

/-- Go `isGitRepo`: `os.Stat` of `.git` under the working directory
returned no error. -/
def isGitRepo (env : Env) : M Bool := do
  let st ← osStat env
  pure (st = StatResult.found)

/-- Go `getCurrentBranch`. -/
def getCurrentBranch (env : Env) : M GoString := do
  let r ← runCommand env (lit "git") [lit "branch", lit "--show-current"]
  if r.2 ≠ none then pure (lit "main") else pure (TrimSpace r.1)

/-- Go `getRepoStats`: the numbers of commits, tracked files and branches. -/
def getRepoStats (env : Env) : M (Int × Int × Int) := do
  let commitsOutput ← runCommand env (lit "git") [lit "rev-list", lit "--count", lit "HEAD"]
  let commits : Int := (Atoi (TrimSpace commitsOutput.1)).1
  let filesOutput ← runCommand env (lit "git") [lit "ls-files"]
  let files : Int := (Split (TrimSpace filesOutput.1) 10).length
  let files : Int := if filesOutput.1 = [] then 0 else files
  let branchesOutput ← runCommand env (lit "git") [lit "branch"]
  let branches : Int := (Split (TrimSpace branchesOutput.1) 10).length
  let branches : Int := if branchesOutput.1 = [] then 0 else branches
  pure (commits, files, branches)

/-! ## Status and quick commit -/

/-- The four lists built by the loop of `analyzeChanges`. -/
structure Changes where
  added : List GoString
  modified : List GoString
  deleted : List GoString
  untracked : List GoString
deriving DecidableEq

/-- One iteration of the loop of `analyzeChanges` over the lines. -/
def classifyLine (c : Changes) (line : GoString) : Changes :=
  if line.length < 3 then c
  else
    let statusCode := line.take 2
    let filename := line.drop 3
    match statusCode.head? with
    | some 65 => { c with added := c.added ++ [filename] }
    | some 77 => { c with modified := c.modified ++ [filename] }
    | some 68 => { c with deleted := c.deleted ++ [filename] }
    | some 63 => { c with untracked := c.untracked ++ [filename] }
    | _ => c

/-- The lists `added, modified, deleted, untracked` of `analyzeChanges`
after its loop. -/
def statusChanges (status : GoString) : Changes :=
  (Split (TrimSpace status) 10).foldl classifyLine
    { added := [], modified := [], deleted := [], untracked := [] }

/-- The suggestion of `analyzeChanges` to stage and commit. -/
def suggestSync : GoString :=
  lit "  → Utilisez 'Sync rapide' pour ajouter et commiter automatiquement\n"

/-- The suggestion of `analyzeChanges` to verify the deletions. -/
def suggestVerifyDeleted : GoString :=
  lit "  → Des fichiers ont été supprimés - vérifiez que c'est intentionnel\n"

/-- The lines `analyzeChanges` prints for the non-empty lists. -/
def changesReport (c : Changes) : List GoString :=
  (if c.added.length > 0 then
    [lit "  ✅ Ajoutés (" ++ Itoa c.added.length ++ lit "): " ++ Join c.added (lit ", ") ++ lit "\n"]
   else []) ++
  (if c.modified.length > 0 then
    [lit "  ✏️ Modifiés (" ++ Itoa c.modified.length ++ lit "): " ++ Join c.modified (lit ", ")
      ++ lit "\n"]
   else []) ++
  (if c.deleted.length > 0 then
    [lit "  🗑️ Supprimés (" ++ Itoa c.deleted.length ++ lit "): " ++ Join c.deleted (lit ", ")
      ++ lit "\n"]
   else []) ++
  (if c.untracked.length > 0 then
    [lit "  📂 Non suivis (" ++ Itoa c.untracked.length ++ lit "): "
      ++ Join c.untracked (lit ", ") ++ lit "\n"]
   else [])

/-- The suggestions `analyzeChanges` prints under "Suggestions:". -/
def changesSuggestions (c : Changes) : List GoString :=
  (if c.untracked.length > 0 ∨ c.modified.length > 0 ∨ c.added.length > 0 then [suggestSync]
   else []) ++
  (if c.deleted.length > 0 then [suggestVerifyDeleted] else [])

/-- Go `analyzeChanges`. -/
def analyzeChanges (status : GoString) : M Unit := do
  let c := statusChanges status
  say (lit "📝 Changements détectés:\n")
  sayAll (changesReport c)
  say (lit "\n💡 Suggestions:\n")
  sayAll (changesSuggestions c)

/-- Go `getStatus`. -/
def getStatus (env : Env) : M (GoString × GoError) :=
  runCommand env (lit "git") [lit "status", lit "--porcelain"]

/-- Go `smartStatus`. -/
def smartStatus (env : Env) : M GoError := do
  say (lit "📊 === STATUT INTELLIGENT ===\n")
  let currentBranch ← getCurrentBranch env
  let stats ← getRepoStats env
  let ga ← getGA
  say (lit "🌿 Branche actuelle: " ++ currentBranch ++ lit "\n")
  say (lit "📁 Projet: " ++ Base ga.workingDir ++ lit "\n")
  say (lit "📊 " ++ Itoa stats.1 ++ lit " commits | " ++ Itoa stats.2.1 ++ lit " fichiers | "
    ++ Itoa stats.2.2 ++ lit " branches\n\n")
  let r ← runCommand env (lit "git") [lit "status", lit "--porcelain"]
  if r.2 ≠ none then pure r.2 else do
  if TrimSpace r.1 = [] then do
    say (lit "✅ Aucun changement - Dépôt propre\n")
    let lastCommit ← runCommand env (lit "git")
      [lit "log", lit "-1", lit "--pretty=format:%h - %s (%cr)"]
    if lastCommit.2 = none ∧ lastCommit.1 ≠ [] then do
      say (lit "📝 Dernier commit: " ++ lastCommit.1 ++ lit "\n")
      pure none
    else pure none
  else do
    analyzeChanges r.1
    pure none

/-- Go `addAll`. -/
def addAll (env : Env) : M GoError := do
  say (lit "📝 Ajout de tous les fichiers...\n")
  let r ← runCommand env (lit "git") [lit "add", lit "."]
  if r.2 ≠ none then
    pure (some (lit "erreur lors de l'ajout des fichiers: " ++ errText r.2))
  else do
  say (lit "✅ Fichiers ajoutés!\n")
  pure none

/-- Go `commit`. -/
def commit (env : Env) (message : GoString) : M GoError := do
  let message ← (if message = [] then do
      let t ← timeNow env (lit "2006-01-02 15:04:05")
      pure (lit "Auto-commit: " ++ t)
    else pure message : M GoString)
  say (lit "💾 Commit avec le message: " ++ message ++ lit "\n")
  let r ← runCommand env (lit "git") [lit "commit", lit "-m", message]
  if r.2 ≠ none then pure (some (lit "erreur lors du commit: " ++ errText r.2)) else do
  say (lit "✅ Commit effectué!\n")
  pure none

/-- The message `quickCommit` commits with for the selection `choice`. -/
def quickCommitMessage (ga : GitAssistant) (choice : GoString) : M GoString :=
  if choice = Itoa (ga.quickCommits.length + 1) then do
    say (cyan (lit "💬 Votre message: "))
    getUserInput
  else
    let idx := Atoi choice
    if idx.2 ≠ none ∨ idx.1 < 1 ∨ idx.1 > ga.quickCommits.length then do
      say (red (lit "❌ Choix invalide, utilisation du message par défaut") ++ lit "\n")
      index ga.quickCommits 0
    else index ga.quickCommits (idx.1 - 1)

/-- Go `quickCommit`. -/
def quickCommit (env : Env) : M GoError := do
  let r ← getStatus env
  if r.2 ≠ none then pure r.2 else do
  if TrimSpace r.1 = [] then do
    say (lit "ℹ️ Aucun changement à commiter\n")
    pure none
  else do
  let ga ← getGA
  say (lit "🚀 === " ++ bold (lit "COMMIT RAPIDE") ++ lit " ===\n")
  say (lit "Messages prédéfinis:\n")
  sayAll (ga.quickCommits.enum.map
    (fun im => Itoa (im.1 + 1) ++ lit ". " ++ green im.2 ++ lit "\n"))
  say (Itoa (ga.quickCommits.length + 1) ++ lit ". " ++ cyan (lit "💬 Message personnalisé")
    ++ lit "\n")
  say (cyan (lit "\nChoisissez (1-9): "))
  let choice ← getUserInput
  let message ← quickCommitMessage ga choice
  let e ← addAll env
  if e ≠ none then pure e else do
  let e ← commit env message
  if e ≠ none then pure e else do
  addToHistory env (lit "Commit rapide: " ++ message)
  pure none

/-! ## Branches -/

/-- Go `createFeatureBranch`. -/
def createFeatureBranch (env : Env) : M GoError := do
  say (lit "✨ Nom de la fonctionnalité: ")
  let feature ← getUserInput
  if feature = [] then pure (some (lit "nom requis")) else do
  let branchName := lit "feature/" ++ ReplaceAll (ToLower env.unicodeLower feature) 32 45
  let r ← runCommand env (lit "git") [lit "checkout", lit "-b", branchName]
  if r.2 ≠ none then pure r.2 else do
  say (lit "✅ Branche '" ++ branchName ++ lit "' créée et activée!\n")
  addToHistory env (lit "Branche créée: " ++ branchName)
  pure none

/-- Go `createBugfixBranch`. -/
def createBugfixBranch (env : Env) : M GoError := do
  say (lit "🐛 Description du bug: ")
  let bug ← getUserInput
  if bug = [] then pure (some (lit "description requise")) else do
  let branchName := lit "bugfix/" ++ ReplaceAll (ToLower env.unicodeLower bug) 32 45
  let r ← runCommand env (lit "git") [lit "checkout", lit "-b", branchName]
  if r.2 ≠ none then pure r.2 else do
  say (lit "✅ Branche '" ++ branchName ++ lit "' créée et activée!\n")
  addToHistory env (lit "Branche de correction créée: " ++ branchName)
  pure none

/-- The second half of `deleteBranch`: after `git branch -d` returned the
error `err`, the optional forced deletion. -/
def forceDelete (env : Env) (branchName : GoString) (err : GoError) : M GoError :=
  if err ≠ none then do
    say (lit "⚠️ Branche non fusionnée. Forcer la suppression? (o/N): ")
    let answer ← getUserInput
    if ToLower env.unicodeLower answer = lit "o" then do
      let r ← runCommand env (lit "git") [lit "branch", lit "-D", branchName]
      pure r.2
    else pure err
  else pure err

/-- Go `deleteBranch`. -/
def deleteBranch (env : Env) : M GoError := do
  say (lit "🗑️ Nom de la branche à supprimer: ")
  let branchName ← getUserInput
  if branchName = [] then pure (some (lit "nom requis")) else do
  let current ← getCurrentBranch env
  if branchName = current then do
    say (lit "❌ Impossible de supprimer la branche courante\n")
    pure none
  else do
  say (lit "⚠️ Êtes-vous sûr de vouloir supprimer '" ++ branchName ++ lit "'? (o/N): ")
  let answer ← getUserInput
  if ToLower env.unicodeLower answer ≠ lit "o" then do
    say (lit "❌ Suppression annulée\n")
    pure none
  else do
  let r ← runCommand env (lit "git") [lit "branch", lit "-d", branchName]
  let err ← forceDelete env branchName r.2
  if err ≠ none then pure err else do
  say (lit "✅ Branche '" ++ branchName ++ lit "' supprimée!\n")
  addToHistory env (lit "Branche supprimée: " ++ branchName)
  pure none

/-- Go `mergeBranch`. -/
def mergeBranch (env : Env) : M GoError := do
  let current ← getCurrentBranch env
  say (lit "🔀 Fusion vers la branche courante (" ++ current ++ lit ")\n")
  say (lit "Nom de la branche à fusionner: ")
  let branchName ← getUserInput
  if branchName = [] then pure (some (lit "nom requis")) else do
  let r ← runCommand env (lit "git") [lit "merge", branchName]
  if r.2 ≠ none then do
    say (lit "❌ Conflit détecté! Résolvez manuellement puis recommitez.\n")
    pure r.2
  else do
  say (lit "✅ Branche '" ++ branchName ++ lit "' fusionnée dans '" ++ current ++ lit "'!\n")
  addToHistory env (lit "Fusion: " ++ branchName ++ lit " → " ++ current)
  pure none

/-- Go `switchBranch`. -/
def switchBranch (env : Env) (name : GoString) : M GoError := do
  let name ← (if name = [] then do
      say (lit "🔄 Nom de la branche: ")
      getUserInput
    else pure name : M GoString)
  if name = [] then pure (some (lit "nom de branche requis")) else do
  say (lit "🔄 Changement vers la branche: " ++ name ++ lit "\n")
  let r ← runCommand env (lit "git") [lit "checkout", name]
  if r.2 ≠ none then
    pure (some (lit "erreur lors du changement de branche: " ++ errText r.2))
  else do
  say (lit "✅ Branche changée!\n")
  addToHistory env (lit "Changement vers: " ++ name)
  pure none

/-- The lines printed by the loops over the output of `git branch -v` in
`intelligentBranching`. -/
def branchListing (lines : List GoString) : List GoString :=
  lines.filterMap (fun line =>
    let line := TrimSpace line
    if line ≠ [] then
      some (if HasPrefix line (lit "*") then green line ++ lit "\n" else line ++ lit "\n")
    else none)

/-- Go `intelligentBranching`. -/
def intelligentBranching (env : Env) : M GoError := do
  say (lit "🌿 === " ++ bold (lit "GESTION INTELLIGENTE DES BRANCHES") ++ lit " ===\n")
  let r ← runCommand env (lit "git") [lit "branch", lit "-v"]
  if r.2 ≠ none then pure r.2 else do
  say (cyan (lit "Branches existantes") ++ lit ":\n")
  sayAll (branchListing (Split (TrimSpace r.1) 10))
  say (lit "\n" ++ cyan (lit "Actions disponibles") ++ lit ":\n")
  say (lit "1. 🌱 Créer branche de fonctionnalité\n")
  say (lit "2. 🐛 Créer branche de correction\n")
  say (lit "3. 🔄 Changer de branche\n")
  say (lit "4. 🗑️ Supprimer une branche\n")
  say (lit "5. 🔀 Fusionner une branche\n")
  say (cyan (lit "\nChoisissez (1-5): "))
  let choice ← getUserInput
  if choice = lit "1" then createFeatureBranch env
  else if choice = lit "2" then createBugfixBranch env
  else if choice = lit "3" then switchBranch env []
  else if choice = lit "4" then deleteBranch env
  else if choice = lit "5" then mergeBranch env
  else do
    say (red (lit "❌ Choix invalide") ++ lit "\n")
    pure none

/-- Go `showHistory`. -/
def showHistory : M GoError := do
  let ga ← getGA
  if ga.lastActions.length = 0 then do
    say (lit "📜 Aucune action récente\n")
    pure none
  else do
  say (lit "📜 === HISTORIQUE DES ACTIONS ===\n")
  sayAll (ga.lastActions.reverse.enum.map (fun ia => Itoa (ia.1 + 1) ++ lit ". " ++ ia.2 ++ lit "\n"))
  pure none

/-! ## History browsing -/

/-- What `displayColoredDiff` prints for one line of the diff. -/
def colorDiffLine (line : GoString) : GoString :=
  if HasPrefix line (lit "diff --git") then bold line ++ lit "\n"
  else if HasPrefix line (lit "index ") then cyan line ++ lit "\n"
  else if HasPrefix line (lit "+++") || HasPrefix line (lit "---") then cyan line ++ lit "\n"
  else if HasPrefix line (lit "@@") then cyan line ++ lit "\n"
  else if HasPrefix line (lit "+") && !HasPrefix line (lit "+++") then green line ++ lit "\n"
  else if HasPrefix line (lit "-") && !HasPrefix line (lit "---") then red line ++ lit "\n"
  else if line = [] then lit "\n"
  else line ++ lit "\n"

/-- Go `displayColoredDiff`. -/
def displayColoredDiff (diffText : GoString) : M Unit :=
  sayAll ((Split diffText 10).map colorDiffLine)

/-- Go `showCommitDetails`. -/
def showCommitDetails (env : Env) : M GoError := do
  say (cyan (lit "🔍 Hash du commit: "))
  let hash ← getUserInput
  if hash = [] then pure (some (lit "hash requis")) else do
  let r ← runCommand env (lit "git")
    [lit "show", lit "--stat", lit "--pretty=format:%h - %s%n%an <%ae>%n%ad%n", hash]
  if r.2 ≠ none then pure r.2 else do
  say (lit "📋 " ++ cyan (lit "Détails du commit") ++ lit ":\n")
  say (r.1 ++ lit "\n")
  let d ← runCommand env (lit "git") [lit "diff", hash ++ lit "^", hash]
  let d ← (if d.2 ≠ none then runCommand env (lit "git") [lit "show", lit "--format=", hash]
    else pure d : M (GoString × GoError))
  if d.2 ≠ none then pure (some (lit "impossible d'obtenir le diff: " ++ errText d.2)) else do
  if TrimSpace d.1 = [] then do
    say (lit "Aucun changement de fichier dans ce commit\n")
    pure none
  else do
  say (lit "\n🔍 " ++ cyan (lit "Diff complet") ++ lit ":\n")
  displayColoredDiff d.1
  pure none

/-- Go `searchInHistory`. -/
def searchInHistory (env : Env) : M GoError := do
  say (lit "🔍 Rechercher (message/auteur/fichier): ")
  let query ← getUserInput
  if query = [] then pure (some (lit "terme de recherche requis")) else do
  let output ← runCommand env (lit "git") [lit "log", lit "--oneline", lit "--grep=" ++ query, lit "-i"]
  sayAll (if output.1 ≠ [] then [lit "📝 Commits avec ce message:\n", output.1 ++ lit "\n"] else [])
  let output2 ← runCommand env (lit "git")
    [lit "log", lit "--oneline", lit "--", lit "*" ++ query ++ lit "*"]
  sayAll (if output2.1 ≠ [] then [lit "📁 Commits affectant ce fichier:\n", output2.1 ++ lit "\n"]
    else [])
  sayAll (if output.1 = [] ∧ output2.1 = [] then [lit "❌ Aucun résultat trouvé\n"] else [])
  pure none

/-- Go `resetToCommit`. -/
def resetToCommit (env : Env) : M GoError := do
  say (lit "📜 Historique récent:\n")
  let r ← runCommand env (lit "git") [lit "log", lit "--oneline", lit "-10"]
  if r.2 ≠ none then pure r.2 else do
  say (r.1 ++ lit "\n")
  say (lit "\n🔄 Types de reset:\n")
  say (lit "1. 🟢 SOFT - Garde les changements dans le staging\n")
  say (lit "2. 🟡 MIXED - Garde les changements mais pas dans le staging\n")
  say (lit "3. 🔴 HARD - Supprime TOUS les changements\n")
  say (lit "\nType (1-3): ")
  let resetType ← getUserInput
  let resetFlag : GoString :=
    if resetType = lit "1" then lit "--soft"
    else if resetType = lit "2" then lit "--mixed"
    else if resetType = lit "3" then lit "--hard"
    else lit "--mixed"
  say (lit "🎯 Hash du commit (ou HEAD~n): ")
  let commitHash ← getUserInput
  if commitHash = [] then pure (some (lit "hash requis")) else do
  let r ← runCommand env (lit "git") [lit "reset", resetFlag, commitHash]
  if r.2 ≠ none then pure r.2 else do
  say (lit "✅ Reset effectué!\n")
  addToHistory env (lit "Reset " ++ resetFlag ++ lit " vers " ++ commitHash)
  pure none

/-- Go `createBranchFromCommit`. -/
def createBranchFromCommit (env : Env) : M GoError := do
  say (lit "📜 Historique récent:\n")
  let r ← runCommand env (lit "git") [lit "log", lit "--oneline", lit "-10"]
  if r.2 ≠ none then pure r.2 else do
  say (r.1 ++ lit "\n")
  say (lit "\n🎯 Hash du commit: ")
  let commitHash ← getUserInput
  say (lit "🌱 Nom de la branche: ")
  let branchName ← getUserInput
  if commitHash = [] ∨ branchName = [] then pure (some (lit "hash et nom requis")) else do
  let r ← runCommand env (lit "git") [lit "checkout", lit "-b", branchName, commitHash]
  if r.2 ≠ none then pure r.2 else do
  say (lit "✅ Branche créée et activée!\n")
  addToHistory env (lit "Branche " ++ branchName ++ lit " depuis " ++ commitHash)
  pure none

/-- The lines `interactiveLog` prints for the log: every line indented, a
rule of 80 dashes after each line but the last. -/
def logListing (lines : List GoString) : List GoString :=
  lines.enum.flatMap (fun il =>
    [lit "  " ++ il.2 ++ lit "\n"] ++
    (if il.1 + 1 < lines.length then [lit "  " ++ cyan (Repeat (lit "─") 80) ++ lit "\n"] else []))

/-- Go `interactiveLog`. -/
def interactiveLog (env : Env) : M GoError := do
  say (lit "📜 === " ++ bold (lit "HISTORIQUE INTERACTIF") ++ lit " ===\n")
  let r ← runCommand env (lit "git")
    [lit "log", lit "--oneline", lit "-15", lit "--graph", lit "--decorate"]
  if r.2 ≠ none then pure r.2 else do
  say (lit "\n")
  sayAll (logListing (Split (TrimSpace r.1) 10))
  say (lit "\n")
  say (cyan (lit "Actions disponibles") ++ lit ":\n")
  say (lit "1. 👀 Voir détails d'un commit\n")
  say (lit "2. ⏪ Reset vers un commit\n")
  say (lit "3. 🌱 Créer branche depuis commit\n")
  say (lit "4. 🔍 Rechercher dans l'historique\n")
  say (cyan (lit "\nChoisissez (1-4): "))
  let choice ← getUserInput
  if choice = lit "1" then showCommitDetails env
  else if choice = lit "2" then resetToCommit env
  else if choice = lit "3" then createBranchFromCommit env
  else if choice = lit "4" then searchInHistory env
  else pure none

/-! ## Project insights -/

/-- The label under which files without extension are counted. -/
def noExtension : GoString := lit "sans extension"

/-- The key of the histogram a path is counted under: `filepath.Ext`, or the
label `noExtension` when that is empty. -/
def extKey (file : GoString) : GoString :=
  if Ext file = [] then noExtension else Ext file

/-- The statement `extCount[ext]++` on a Go map, the map held as the list of
its entries (one entry per key, in order of first insertion). -/
def mapIncr : List kv → GoString → List kv
  | [], ext => [{ Key := ext, Value := 1 }]
  | e :: m, ext =>
    if e.Key = ext then { Key := ext, Value := e.Value + 1 } :: m else e :: mapIncr m ext

/-- The map `extCount` after the first loop of `analyzeFileTypes`. -/
def extCounts (files : List GoString) : List kv :=
  files.foldl (fun m file => if file = [] then m else mapIncr m (extKey file)) []

/-- The groups `analyzeFileTypes` prints: the first five elements of the
sorted slice. -/
def reportedFileTypes (env : Env) (files : List GoString) : List kv :=
  (env.sortSlice (env.mapRange (extCounts files))).take 5

/-- Go `analyzeFileTypes`. -/
def analyzeFileTypes (env : Env) (files : List GoString) : M Unit := do
  say (lit "📂 Types de fichiers:\n")
  sayAll ((reportedFileTypes env files).map
    (fun e => lit "  • " ++ e.Key ++ lit ": " ++ Itoa e.Value ++ lit " fichiers\n"))
  say (lit "\n")

/-- The loop of `projectInsights` over the output of `git branch -v`. -/
def insightsBranchLoop : List GoString → M Unit
  | [] => pure ()
  | line :: rest => do
    let line := TrimSpace line
    if line ≠ [] then
      if HasPrefix line (lit "*") then do
        let name ← sliceFrom line 2
        say (lit "  → " ++ green name ++ lit " " ++ cyan (lit "(branche actuelle)") ++ lit "\n")
      else say (lit "  • " ++ line ++ lit "\n")
    else pure ()
    insightsBranchLoop rest

/-- The loop of `projectInsights` over the output of `git count-objects`. -/
def insightsSizeLoop : List GoString → M Unit
  | [] => pure ()
  | line :: rest =>
    if Contains line (lit "size-pack") then do
      let size ← index (Split line 32) 1
      say (lit "💾 Taille: " ++ green size ++ lit "\n")
    else insightsSizeLoop rest

/-- Go `projectInsights`. -/
def projectInsights (env : Env) : M GoError := do
  say (lit "📊 === " ++ bold (lit "ANALYSE DU PROJET") ++ lit " ===\n")
  let stats ← getRepoStats env
  say (lit "📈 Statistiques:\n")
  say (lit "  • " ++ green (Itoa stats.1) ++ lit " commits au total\n")
  say (lit "  • " ++ green (Itoa stats.2.1) ++ lit " fichiers suivis\n")
  say (lit "  • " ++ green (Itoa stats.2.2) ++ lit " branches\n\n")
  say (lit "🌿 " ++ cyan (lit "Branches disponibles") ++ lit ":\n")
  let b ← runCommand env (lit "git") [lit "branch", lit "-v"]
  if b.2 = none ∧ b.1 ≠ [] then insightsBranchLoop (Split (TrimSpace b.1) 10)
  else say (lit "  Aucune branche trouvée\n")
  say (lit "\n")
  let o ← runCommand env (lit "git") [lit "ls-files"]
  if o.2 = none ∧ o.1 ≠ [] then analyzeFileTypes env (Split o.1 10) else pure ()
  let recent ← runCommand env (lit "git") [lit "log", lit "--since=1.week.ago", lit "--oneline"]
  if recent.2 = none then
    let recentCommits : Int := (Split (TrimSpace recent.1) 10).length
    let recentCommits : Int := if recent.1 = [] then 0 else recentCommits
    say (lit "⚡ Activité récente: " ++ green (Itoa recentCommits) ++ lit " commits cette semaine\n")
  else pure ()
  let size ← runCommand env (lit "git") [lit "count-objects", lit "-vH"]
  if size.1 ≠ [] then insightsSizeLoop (Split size.1 10) else pure ()
  pure none

/-! ## Repository, directory and menu -/

/-- Go `initRepo`. -/
def initRepo (env : Env) : M GoError := do
  say (lit "🔧 Initialisation du dépôt Git...\n")
  let r ← runCommand env (lit "git") [lit "init"]
  if r.2 ≠ none then pure (some (lit "erreur lors de l'initialisation: " ++ errText r.2)) else do
  say (lit "✅ Dépôt Git initialisé avec succès!\n")
  addToHistory env (lit "Dépôt initialisé")
  pure none

/-- Go `autoSync`. -/
def autoSync (env : Env) : M GoError := do
  say (lit "🔄 Synchronisation automatique...\n")
  let r ← getStatus env
  if r.2 ≠ none then pure r.2 else do
  if TrimSpace r.1 = [] then do
    say (lit "ℹ️ Aucun changement détecté\n")
    pure none
  else do
  let e ← addAll env
  if e ≠ none then pure e else do
  let e ← commit env []
  if e ≠ none then pure e else do
  say (lit "🎉 Synchronisation locale terminée!\n")
  addToHistory env (lit "Synchronisation automatique")
  pure none

/-- Go `setWorkingDirectory`. -/
def setWorkingDirectory (env : Env) (newPath : GoString) : M GoError := do
  if newPath = [] then pure (some (lit "chemin vide")) else do
  let a ← filepathAbs env newPath
  if a.2 ≠ none then pure (some (lit "chemin invalide: " ++ errText a.2)) else do
  let st ← osStat env
  if st = StatResult.notExist then
    pure (some (lit "le répertoire n'existe pas: " ++ a.1))
  else do
  modifyGA (fun ga => { ga with workingDir := a.1, lastActions := [] })
  let ga ← getGA
  say (ColorGreen ++ lit "✅ Répertoire défini: " ++ ga.workingDir ++ lit "\n" ++ ColorReset)
  pure none

/-- Go `changeDirectory`. -/
def changeDirectory (env : Env) : M GoError := do
  say (lit "📁 Nouveau répertoire: ")
  let newPath ← getUserInput
  setWorkingDirectory env newPath

/-- Go `clearScreen`: runs `clear` outside `runCommand`, `cmd.Dir` not set. -/
def clearScreen : M Unit := fun s =>
  (some (), { s with log := s.log ++ [{ dir := [], name := lit "clear", args := [] }] })

/-- The title printed by `showSmartMenu`. -/
def menuTitle : GoString :=
  lit "\n   ___ ___ _____ ___ _____ ___ _    \n  / __|_ _|_   _/ __|_   _| _ \\ |   \n | (_ || |  | || (__  | | |   / |__ \n  \\___|___| |_| \\___| |_| |_|_\\____|"

/-- Go `showSmartMenu`. -/
def showSmartMenu (env : Env) : M Unit := do
  clearScreen
  say (cyan menuTitle ++ lit "\n")
  say (lit "\n🚀 === " ++ bold (lit "GIT ASSISTANT INTELLIGENT") ++ lit " ===\n")
  let ga ← getGA
  say (lit "📁 Répertoire: " ++ cyan ga.workingDir ++ lit "\n")
  let repo ← isGitRepo env
  if repo then do
    let branch ← getCurrentBranch env
    let stats ← getRepoStats env
    say (lit "🌿 Branche: " ++ green branch ++ lit " | 📊 " ++ Itoa stats.1 ++ lit " commits")
    let status ← getStatus env
    if TrimSpace status.1 ≠ [] then say (lit " | " ++ red (lit "⚠️ Changements non commitées"))
    else pure ()
    say (lit "\n")
    say (lit "\n=== " ++ cyan (lit "ACTIONS RAPIDES") ++ lit " ===\n")
    say (lit "1. ⚡ Commit rapide (messages prédéfinis)\n")
    say (lit "\n=== " ++ cyan (lit "GESTION AVANCÉE") ++ lit " ===\n")
    say (lit "2. 🌿 Gestion intelligente des branches\n")
    say (lit "3. 📜 Historique interactif\n")
    say (lit "4. 📊 Analyse du projet\n")
    say (lit "\n=== " ++ cyan (lit "NAVIGATION") ++ lit " ===\n")
    say (lit "5. 📁 Changer de répertoire\n")
    say (lit "6. 🔧 Initialiser Git\n")
  else do
    say (red (lit "⚠️ Pas un dépôt Git") ++ lit "\n")
    say (lit "\n=== " ++ cyan (lit "ACTIONS DISPONIBLES") ++ lit " ===\n")
    say (lit "1. 🔧 Initialiser un dépôt Git ici\n")
    say (lit "2. 📁 Changer de répertoire\n")
  say (lit "\n0. ❌ Quitter\n")
  say (cyan (lit "\n💫 Choisissez une action: "))

/-- The statement `if err := ...; err != nil { fmt.Printf(red("❌ Erreur: %v\n"), err) }`
of `run`, for the error `err` an executor returned. -/
def reportError (err : GoError) : M Unit :=
  if err ≠ none then say (ColorRed ++ lit "❌ Erreur: " ++ errText err ++ lit "\n" ++ ColorReset)
  else pure ()

/-- The message of `run` for an action that needs a repository. -/
def needsRepo : M Unit := say (red (lit "❌ Cette action nécessite un dépôt Git") ++ lit "\n")

/-- The `switch choice` of the loop of `run`; the result is `true` when the
case executed `return`. -/
def menuDispatch (env : Env) (choice : GoString) : M Bool :=
  if choice = lit "1" then do
    let repo ← isGitRepo env
    let err ← (if repo then quickCommit env else initRepo env : M GoError)
    reportError err
    pure false
  else if choice = lit "2" then do
    let repo ← isGitRepo env
    let err ← (if repo then intelligentBranching env else changeDirectory env : M GoError)
    reportError err
    pure false
  else if choice = lit "3" then do
    let repo ← isGitRepo env
    if repo then do
      let err ← interactiveLog env
      reportError err
    else needsRepo
    pure false
  else if choice = lit "4" then do
    let repo ← isGitRepo env
    if repo then do
      let err ← projectInsights env
      reportError err
    else needsRepo
    pure false
  else if choice = lit "5" then do
    let repo ← isGitRepo env
    if repo then do
      let err ← changeDirectory env
      reportError err
    else needsRepo
    pure false
  else if choice = lit "6" then do
    let repo ← isGitRepo env
    if repo then do
      let err ← initRepo env
      reportError err
    else needsRepo
    pure false
  else if choice = lit "0" then do
    say (lit "👋 Au revoir!\n")
    pure true
  else do
    say (red (lit "❌ Option invalide!") ++ lit "\n")
    pure false

/-- One iteration of the loop of `run`; the result is `true` when the
iteration ended the loop (`return`), `false` when the loop goes on. -/
def menuIteration (env : Env) : M Bool := do
  showSmartMenu env
  let choice ← getUserInput
  let returned ← menuDispatch env choice
  if returned then pure true else do
  say (lit "\n⏸️ Appuyez sur Entrée pour continuer...\n")
  let _ ← getUserInput
  pure false

/-- At most `fuel` iterations of the loop of `run`; the result is `true`
when the loop ended, `false` when it is still running after `fuel`
iterations. -/
def runLoop (env : Env) : Nat → M Bool
  | 0 => pure false
  | fuel + 1 => do
    let returned ← menuIteration env
    if returned then pure true else runLoop env fuel

/-- Go `run`, its loop cut after `fuel` iterations. -/
def run (env : Env) (fuel : Nat) : M Bool := do
  say (bold (lit "🎯 Git Assistant Intelligent démarré!") ++ lit "\n")
  say (lit "\n📁 === " ++ cyan (lit "SÉLECTION DU RÉPERTOIRE DE TRAVAIL") ++ lit " ===\n")
  let ga ← getGA
  say (lit "Répertoire actuel: " ++ cyan ga.workingDir ++ lit "\n")
  say (cyan (lit "Entrez le chemin du dossier de travail: "))
  let newPath ← getUserInput
  let err ← (if newPath ≠ [] then setWorkingDirectory env newPath else pure none : M GoError)
  if err ≠ none then do
    say (ColorRed ++ lit "❌ Erreur: " ++ errText err ++ lit "\n" ++ ColorReset)
    say (lit "Continuer avec le répertoire actuel? (o/N): ")
    let answer ← getUserInput
    if ToLower env.unicodeLower answer ≠ lit "o" then do
      say (lit "👋 Au revoir!\n")
      pure true
    else runLoop env fuel
  else runLoop env fuel

/-! ## Notions used to state the properties -/

/-- The property `Q` holds of the result and the final state of `m` run from `s`. -/
def wp {α : Type} (m : M α) (Q : Option α → State → Prop) (s : State) : Prop :=
  Q (m s).1 (m s).2

/-- The line the next call of `getUserInput` returns in state `s`. -/
def nextInput (s : State) : GoString := TrimSpace (s.stdin.headD [])

/-- The line the second next call of `getUserInput` returns in state `s`. -/
def secondInput (s : State) : GoString := TrimSpace (s.stdin.tail.headD [])

/-- The external commands started after the first `n`. -/
def startedAfter (n : Nat) (s : State) : List Cmd := s.log.drop n

/-- The history entries appended by a sequence of calls `(now, action)` of
`addToHistory`, oldest first. -/
def entriesOf (calls : List (GoString × GoString)) : List GoString :=
  calls.map (fun c => historyEntry c.1 c.2)

/-- The session after a sequence of calls `(now, action)` of `addToHistory`. -/
def addAllToHistory (ga : GitAssistant) (calls : List (GoString × GoString)) : GitAssistant :=
  calls.foldl (fun g c => g.addToHistory c.1 c.2) ga

/-- The branch name `getCurrentBranch` makes of the outcome `r` of its query. -/
def branchAnswer (r : GoString × GoError) : GoString :=
  if r.2 ≠ none then lit "main" else TrimSpace r.1

/-- The command is a branch deletion: `git branch -d ...` or `git branch -D ...`. -/
def isDeleteCmd (c : Cmd) : Bool :=
  c.name = lit "git" &&
    (c.args.take 2 = [lit "branch", lit "-d"] || c.args.take 2 = [lit "branch", lit "-D"])

/-- The command `git args...` started in the working directory of `s`. -/
def git (s : State) (args : List GoString) : Cmd :=
  { dir := s.ga.workingDir, name := lit "git", args := args }

/-- The calls `addToHistory(a)` for the actions `a` of a list, one after the
other. -/
def addToHistoryEach (env : Env) : List GoString → M Unit
  | [] => pure ()
  | a :: rest => do
    addToHistory env a
    addToHistoryEach env rest

/-- The actions of a list, each paired with the time the clock shows at its
call of `addToHistory`, the first call being the `k`-th reading of the clock. -/
def stamped (env : Env) (k : Nat) : List GoString → List (GoString × GoString)
  | [] => []
  | a :: rest => (env.now k (lit "15:04"), a) :: stamped env (k + 1) rest

/-- The numbers of the menu `showSmartMenu` prints. -/
def menuChoices (repo : Bool) : List GoString :=
  if repo then [lit "0", lit "1", lit "2", lit "3", lit "4", lit "5", lit "6"]
  else [lit "0", lit "1", lit "2"]

/-- The session after an operation is the session before it, or the session
before it with one entry added to the history. -/
def HistoryStep (before after : GitAssistant) : Prop :=
  after = before ∨ ∃ now action, after = before.addToHistory now action

/-- The computation leaves the session as it is. -/
def Frame {α : Type} (m : M α) : Prop := ∀ s, (m s).2.ga = s.ga

/-- The history `history` with `entry` appended and, when that makes more
than 10 entries, the oldest one dropped. -/
def pushEvict (history : List GoString) (entry : GoString) : List GoString :=
  if (history ++ [entry]).length > 10 then (history ++ [entry]).drop 1 else history ++ [entry]

/-- The history `after` is `before` unchanged, or `before` with one entry
appended (and the oldest evicted at capacity). -/
def AppendOnly (before after : List GoString) : Prop :=
  after = before ∨ ∃ entry, after = pushEvict before entry

/-- The operations of a session: every executor of the program, and the
change of the working directory. -/
inductive Op where
  | quickCommit
  | intelligentBranching
  | createFeatureBranch
  | createBugfixBranch
  | switchBranch (name : GoString)
  | deleteBranch
  | mergeBranch
  | showHistory
  | interactiveLog
  | showCommitDetails
  | searchInHistory
  | resetToCommit
  | createBranchFromCommit
  | projectInsights
  | smartStatus
  | initRepo
  | autoSync
  | changeDirectory
  | setWorkingDirectory (newPath : GoString)

/-- The Go method an operation stands for. -/
def Op.run (env : Env) : Op → M GoError
  | .quickCommit => GitCtrl.quickCommit env
  | .intelligentBranching => GitCtrl.intelligentBranching env
  | .createFeatureBranch => GitCtrl.createFeatureBranch env
  | .createBugfixBranch => GitCtrl.createBugfixBranch env
  | .switchBranch name => GitCtrl.switchBranch env name
  | .deleteBranch => GitCtrl.deleteBranch env
  | .mergeBranch => GitCtrl.mergeBranch env
  | .showHistory => GitCtrl.showHistory
  | .interactiveLog => GitCtrl.interactiveLog env
  | .showCommitDetails => GitCtrl.showCommitDetails env
  | .searchInHistory => GitCtrl.searchInHistory env
  | .resetToCommit => GitCtrl.resetToCommit env
  | .createBranchFromCommit => GitCtrl.createBranchFromCommit env
  | .projectInsights => GitCtrl.projectInsights env
  | .smartStatus => GitCtrl.smartStatus env
  | .initRepo => GitCtrl.initRepo env
  | .autoSync => GitCtrl.autoSync env
  | .changeDirectory => GitCtrl.changeDirectory env
  | .setWorkingDirectory newPath => GitCtrl.setWorkingDirectory env newPath

/-- The operation is a change of the working directory. -/
def Op.changesDirectory : Op → Bool
  | .changeDirectory => true
  | .setWorkingDirectory _ => true
  | _ => false

/-- The directory a change of the working directory is asked to go to: the
argument of `setWorkingDirectory`, the line `changeDirectory` reads. -/
def Op.enteredPath (s : State) : Op → GoString
  | .setWorkingDirectory newPath => newPath
  | .changeDirectory => nextInput s
  | _ => []

/-- An environment that answers every command with the output `out` and the
error `err`, every `os.Stat` with `st`, tells the time 12:34 and has
`filepath.Abs` return its argument. -/
def constEnv (out : GoString) (err : GoError) (st : StatResult) : Env where
  exec := fun _ => (out, err)
  stat := fun _ => st
  abs := fun _ p => (p, none)
  now := fun _ layout => if layout = lit "15:04" then lit "12:34" else lit "2024-01-01 12:34:56"
  unicodeLower := fun s => s
  mapRange := fun m => m
  sortSlice := fun l => l.insertionSort (fun a b => a.Value ≥ b.Value)

/-- The state at the start of a run in the directory `wd` with the lines
`stdin` on standard input and the history `history`. -/
def startState (wd : GoString) (history : List GoString) (stdin : List GoString) : State :=
  { ga := { NewGitAssistant wd with lastActions := history },
    stdin := stdin, log := [], out := [], nStat := 0, nClock := 0 }

/-- What `setWorkingDirectory` returns and does to the session: it succeeds
exactly when the path is not empty, `filepath.Abs` returns no error and
`os.Stat` does not report that the directory is missing; then the working
directory is the absolute path and the history is empty; otherwise the session
is unchanged. -/
def DirectoryOutcome (env : Env) (path : GoString) (s : State) (r : Option GoError)
    (s1 : State) : Prop :=
  (r = some none ↔
      path ≠ [] ∧ (env.abs s.nStat path).2 = none ∧ env.stat s.nStat ≠ StatResult.notExist)
  ∧ (r = some none →
      s1.ga = { s.ga with workingDir := (env.abs s.nStat path).1, lastActions := [] })
  ∧ (r ≠ some none → s1.ga = s.ga)

/-- The number of non-empty paths among `files` that are counted under `key`. -/
def countUnder (files : List GoString) (key : GoString) : Nat :=
  (files.filter (fun f => decide (f ≠ [] ∧ extKey f = key))).length

/-- Eleven actions, "0" to "10". -/
def elevenActions : List GoString :=
  (List.range 11).map (fun i => Itoa i)

/-- The commands started from the `a`-th up to the `b`-th (excluded) all ended
without error. -/
def commandsOk (env : Env) (a b : Nat) : Prop :=
  ∀ k, a ≤ k → k < b → (env.exec k).2 = none

/-- The outcome `r` and the final state `s1` of an executor started in `s`:
unless it returned without error the session is unchanged; and when the
session has changed, the executor started a command, the last command it
started ended without error and, for a `strict` executor, so did every command
it started. -/
def HistoryOnSuccess (env : Env) (strict : Bool) (s : State) (r : Option GoError)
    (s1 : State) : Prop :=
  (r ≠ some none → s1.ga = s.ga)
  ∧ (s1.ga ≠ s.ga →
      s.log.length < s1.log.length ∧ (env.exec (s1.log.length - 1)).2 = none
        ∧ (strict = true → commandsOk env s.log.length s1.log.length))

/-- The executor goes on after a command it started has failed and may still
add to the history: `deleteBranch` (the forced deletion after a failed
deletion; the query of the current branch), `mergeBranch` (the query of the
current branch) and the branch menu, which calls them. -/
def Op.toleratesFailure : Op → Bool
  | .deleteBranch => true
  | .mergeBranch => true
  | .intelligentBranching => true
  | _ => false

/-- An environment that answers the `k`-th command started with the `k`-th
element of `script` (with no output and no error past its end) and is
`constEnv` otherwise. -/
def scriptEnv (script : List (GoString × GoError)) : Env :=
  { constEnv [] none StatResult.found with exec := fun k => script.getD k ([], none) }

/-- The answers to `git status --porcelain` (a change), `git add .` (success)
and `git commit` (failure). -/
def commitFailsScript : List (GoString × GoError) :=
  [(lit "M  a.txt\n", none), ([], none), (lit "fatal: unable to write", some (lit "exit status 128"))]

/-- The answers to `git branch --show-current` ("main"), `git branch -d`
(failure: the branch is not merged) and `git branch -D` (success). -/
def forcedDeleteScript : List (GoString × GoError) :=
  [(lit "main\n", none),
   (lit "error: The branch 'old' is not fully merged.\n", some (lit "exit status 1")),
   (lit "Deleted branch old.\n", none)]

/-- The command changes the repository: `git checkout`, `git merge`,
`git reset`, `git add`, `git commit`, `git init`, or a branch deletion. -/
def isStateChanging (c : Cmd) : Bool :=
  c.name = lit "git" &&
    (c.args.head? = some (lit "checkout") || c.args.head? = some (lit "merge")
      || c.args.head? = some (lit "reset") || c.args.head? = some (lit "add")
      || c.args.head? = some (lit "commit") || c.args.head? = some (lit "init")
      || isDeleteCmd c)

/-- The text an operation requires, as it stands on standard input in the
state `s` (or is passed as the argument): the variable the Go method compares
with the empty string before it goes on.  `resetToCommit` reads the kind of
reset first and the revision second.  Operations that require no text have
none. -/
def Op.requiredInput (s : State) : Op → Option GoString
  | .createFeatureBranch => some (nextInput s)
  | .createBugfixBranch => some (nextInput s)
  | .switchBranch name => some (if name = [] then nextInput s else name)
  | .deleteBranch => some (nextInput s)
  | .mergeBranch => some (nextInput s)
  | .showCommitDetails => some (nextInput s)
  | .searchInHistory => some (nextInput s)
  | .resetToCommit => some (secondInput s)
  | .createBranchFromCommit => some (nextInput s)
  | .changeDirectory => some (nextInput s)
  | .setWorkingDirectory newPath => some newPath
  | _ => none

/-- The outcome `r` and the final state `s1` of an operation started in `s`
that was aborted: an error is returned, the session is unchanged and no command
that changes the repository was started. -/
def Aborted (s : State) (r : Option GoError) (s1 : State) : Prop :=
  (∃ e, r = some (some e)) ∧ s1.ga = s.ga
    ∧ ∀ c ∈ startedAfter s.log.length s1, isStateChanging c = false

/-- The classes of the lines of a diff. -/
inductive DiffClass where
  | fileHeader
  | indexLine
  | hunkHeader
  | addedLine
  | removedLine
  | contextLine
  | blankLine
deriving DecidableEq

/-- The class of a line: the case of the `switch` of `displayColoredDiff` the
line falls in (the cases for "diff --git" and for "+++" or "---" are both file
headers). -/
def diffClass (line : GoString) : DiffClass :=
  if HasPrefix line (lit "diff --git") then DiffClass.fileHeader
  else if HasPrefix line (lit "index ") then DiffClass.indexLine
  else if HasPrefix line (lit "+++") || HasPrefix line (lit "---") then DiffClass.fileHeader
  else if HasPrefix line (lit "@@") then DiffClass.hunkHeader
  else if HasPrefix line (lit "+") && !HasPrefix line (lit "+++") then DiffClass.addedLine
  else if HasPrefix line (lit "-") && !HasPrefix line (lit "---") then DiffClass.removedLine
  else if line = [] then DiffClass.blankLine
  else DiffClass.contextLine

/-! ## The calculus of `wp` -/

theorem wp_pure {α : Type} (a : α) (Q : Option α → State → Prop) (s : State) :
    wp (pure a : M α) Q s ↔ Q (some a) s := Iff.rfl

theorem wp_bind {α β : Type} (m : M α) (f : α → M β) (Q : Option β → State → Prop)
    (s : State) :
    wp (m >>= f) Q s
      ↔ wp m (fun r s1 => match r with
          | some a => wp (f a) Q s1
          | none => Q none s1) s := by
  show Q (M.bind m f s).1 (M.bind m f s).2 ↔ _
  unfold wp M.bind
  rcases h : m s with ⟨r, s1⟩
  cases r <;> exact Iff.rfl

theorem wp_ite {α : Type} (c : Prop) [Decidable c] (a b : M α)
    (Q : Option α → State → Prop) (s : State) :
    wp (if c then a else b) Q s ↔ if c then wp a Q s else wp b Q s := by
  split <;> exact Iff.rfl

theorem wp_always {α : Type} (m : M α) (Q : Option α → State → Prop) (s : State)
    (h : ∀ r s1, Q r s1) : wp m Q s := h _ _

theorem wp_mono {α : Type} (m : M α) (P Q : Option α → State → Prop) (s : State)
    (hm : wp m P s) (h : ∀ r s1, P r s1 → Q r s1) : wp m Q s := h _ _ hm

theorem wp_of_frame {α : Type} (m : M α) (Q : Option α → State → Prop) (s : State)
    (hf : ∀ s0, (m s0).2.ga = s0.ga) (h : ∀ r s1, s1.ga = s.ga → Q r s1) : wp m Q s :=
  h _ _ (hf s)

theorem wp_bind_of_run {α β : Type} (m : M α) (f : α → M β) (Q : Option β → State → Prop)
    (s : State) (a : α) (h : (m s).1 = some a) :
    wp (m >>= f) Q s ↔ wp (f a) Q (m s).2 := by
  rw [wp_bind]
  unfold wp
  simp only [h]

theorem wp_say (t : GoString) (Q : Option Unit → State → Prop) (s : State) :
    wp (say t) Q s ↔ Q (some ()) { s with out := s.out ++ [t] } := Iff.rfl

theorem wp_sayAll (ts : List GoString) (Q : Option Unit → State → Prop) (s : State) :
    wp (sayAll ts) Q s ↔ Q (some ()) { s with out := s.out ++ ts } := Iff.rfl

theorem wp_getGA (Q : Option GitAssistant → State → Prop) (s : State) :
    wp getGA Q s ↔ Q (some s.ga) s := Iff.rfl

theorem wp_modifyGA (f : GitAssistant → GitAssistant) (Q : Option Unit → State → Prop)
    (s : State) :
    wp (modifyGA f) Q s ↔ Q (some ()) { s with ga := f s.ga } := Iff.rfl

theorem wp_goPanic {α : Type} (Q : Option α → State → Prop) (s : State) :
    wp (goPanic : M α) Q s ↔ Q none s := Iff.rfl

theorem wp_index {α : Type} (l : List α) (i : Int) (Q : Option α → State → Prop) (s : State) :
    wp (index l i) Q s
      ↔ if i < 0 then Q none s
        else match l.get? i.toNat with
          | some a => Q (some a) s
          | none => Q none s := by
  unfold index
  split
  · exact Iff.rfl
  · cases h : l.get? i.toNat <;> exact Iff.rfl

theorem wp_sliceFrom (t : GoString) (i : Nat) (Q : Option GoString → State → Prop) (s : State) :
    wp (sliceFrom t i) Q s ↔ if t.length < i then Q none s else Q (some (t.drop i)) s := by
  unfold sliceFrom
  split <;> exact Iff.rfl

theorem wp_getUserInput (Q : Option GoString → State → Prop) (s : State) :
    wp getUserInput Q s
      ↔ Q (some (TrimSpace (s.stdin.headD []))) { s with stdin := s.stdin.tail } := Iff.rfl

theorem wp_runCommand (env : Env) (command : GoString) (args : List GoString)
    (Q : Option (GoString × GoError) → State → Prop) (s : State) :
    wp (runCommand env command args) Q s
      ↔ Q (some (env.exec s.log.length))
          { s with log := s.log ++ [{ dir := s.ga.workingDir, name := command, args := args }] } :=
  Iff.rfl

theorem wp_timeNow (env : Env) (layout : GoString)
    (Q : Option GoString → State → Prop) (s : State) :
    wp (timeNow env layout) Q s
      ↔ Q (some (env.now s.nClock layout)) { s with nClock := s.nClock + 1 } := Iff.rfl

theorem wp_osStat (env : Env) (Q : Option StatResult → State → Prop) (s : State) :
    wp (osStat env) Q s ↔ Q (some (env.stat s.nStat)) { s with nStat := s.nStat + 1 } := Iff.rfl

theorem wp_filepathAbs (env : Env) (p : GoString)
    (Q : Option (GoString × GoError) → State → Prop) (s : State) :
    wp (filepathAbs env p) Q s ↔ Q (some (env.abs s.nStat p)) s := Iff.rfl

theorem wp_addToHistory (env : Env) (action : GoString)
    (Q : Option Unit → State → Prop) (s : State) :
    wp (addToHistory env action) Q s
      ↔ Q (some ())
          { s with ga := s.ga.addToHistory (env.now s.nClock (lit "15:04")) action,
                   nClock := s.nClock + 1 } := Iff.rfl

theorem wp_isGitRepo (env : Env) (Q : Option Bool → State → Prop) (s : State) :
    wp (isGitRepo env) Q s
      ↔ Q (some (decide (env.stat s.nStat = StatResult.found))) { s with nStat := s.nStat + 1 } :=
  Iff.rfl

theorem wp_clearScreen (Q : Option Unit → State → Prop) (s : State) :
    wp clearScreen Q s
      ↔ Q (some ()) { s with log := s.log ++ [{ dir := [], name := lit "clear", args := [] }] } :=
  Iff.rfl

theorem wp_getStatus (env : Env) (Q : Option (GoString × GoError) → State → Prop)
    (s : State) :
    wp (getStatus env) Q s
      ↔ Q (some (env.exec s.log.length))
          { s with log := s.log ++ [git s [lit "status", lit "--porcelain"]] } := Iff.rfl

theorem wp_getCurrentBranch (env : Env) (Q : Option GoString → State → Prop) (s : State) :
    wp (getCurrentBranch env) Q s
      ↔ Q (some (branchAnswer (env.exec s.log.length)))
          { s with log := s.log ++ [git s [lit "branch", lit "--show-current"]] } := by
  simp only [getCurrentBranch, wp_bind, wp_runCommand, wp_ite, wp_pure, branchAnswer, git]
  split <;> exact Iff.rfl

theorem wp_getRepoStats (env : Env) (Q : Option (Int × Int × Int) → State → Prop) (s : State) :
    wp (getRepoStats env) Q s
      ↔ Q (some ((Atoi (TrimSpace (env.exec s.log.length).1)).1,
            (if (env.exec (s.log.length + 1)).1 = [] then 0
             else ((Split (TrimSpace (env.exec (s.log.length + 1)).1) 10).length : Int)),
            (if (env.exec (s.log.length + 2)).1 = [] then 0
             else ((Split (TrimSpace (env.exec (s.log.length + 2)).1) 10).length : Int))))
          { s with log := s.log ++ [git s [lit "rev-list", lit "--count", lit "HEAD"],
                                    git s [lit "ls-files"], git s [lit "branch"]] } := by
  simp only [getRepoStats, wp_bind, wp_runCommand, wp_pure, List.length_append,
    List.length_singleton, List.append_assoc, List.singleton_append, git]

theorem wp_reportError (err : GoError) (Q : Option Unit → State → Prop) (s : State) :
    wp (reportError err) Q s
      ↔ if err ≠ none then
          Q (some ()) { s with out := s.out ++
            [ColorRed ++ lit "❌ Erreur: " ++ errText err ++ lit "\n" ++ ColorReset] }
        else Q (some ()) s := by
  unfold reportError
  split <;> exact Iff.rfl

theorem wp_needsRepo (Q : Option Unit → State → Prop) (s : State) :
    wp needsRepo Q s
      ↔ Q (some ()) { s with out := s.out ++
          [red (lit "❌ Cette action nécessite un dépôt Git") ++ lit "\n"] } := Iff.rfl

/-! ## Action history -/

theorem addToHistory_lastActions (ga : GitAssistant) (now action : GoString)
    (h : ga.lastActions.length ≤ 10) :
    (ga.addToHistory now action).lastActions
      = (ga.lastActions ++ [historyEntry now action]).drop
          ((ga.lastActions ++ [historyEntry now action]).length - 10) := by
  unfold GitAssistant.addToHistory
  simp only [List.length_append, List.length_singleton]
  by_cases h10 : ga.lastActions.length = 10
  · simp [h10]
  · have h0 : ga.lastActions.length + 1 - 10 = 0 := by omega
    have h1 : ¬ (ga.lastActions.length + 1 > 10) := by omega
    simp [h0, h1]

theorem addAllToHistory_lastActions (calls : List (GoString × GoString)) :
    ∀ ga : GitAssistant, ga.lastActions.length ≤ 10 →
      (addAllToHistory ga calls).lastActions
        = (ga.lastActions ++ entriesOf calls).drop
            ((ga.lastActions ++ entriesOf calls).length - 10) := by
  induction calls with
  | nil =>
    intro ga h
    have h0 : ga.lastActions.length - 10 = 0 := by omega
    simp [addAllToHistory, entriesOf, h0]
  | cons c rest ih =>
    intro ga h
    have hstep := addToHistory_lastActions ga c.1 c.2 h
    have hlen : (ga.addToHistory c.1 c.2).lastActions.length
        = ga.lastActions.length + 1 - (ga.lastActions.length + 1 - 10) := by
      rw [hstep]; simp
    have ih1 := ih (ga.addToHistory c.1 c.2) (by omega)
    simp only [addAllToHistory, List.foldl_cons] at ih1 ⊢
    rw [ih1, List.length_append, hlen, hstep]
    have hk : (ga.lastActions ++ [historyEntry c.1 c.2]).length - 10
        ≤ (ga.lastActions ++ [historyEntry c.1 c.2]).length := by
      omega
    rw [← List.drop_append_of_le_length hk, List.drop_drop]
    have hrw : ga.lastActions ++ entriesOf (c :: rest)
        = ga.lastActions ++ [historyEntry c.1 c.2] ++ entriesOf rest := by
      simp [entriesOf]
    rw [hrw]
    congr 1
    simp only [List.length_append, List.length_singleton]
    omega

theorem stamped_length (env : Env) (actions : List GoString) :
    ∀ k : Nat, (stamped env k actions).length = actions.length := by
  induction actions with
  | nil => intro k; rfl
  | cons a rest ih => intro k; simp [stamped, ih]

theorem addToHistoryEach_run (env : Env) (actions : List GoString) :
    ∀ s : State, (addToHistoryEach env actions s).1 = some ()
      ∧ (addToHistoryEach env actions s).2.ga
          = addAllToHistory s.ga (stamped env s.nClock actions) := by
  induction actions with
  | nil => intro s; exact ⟨rfl, rfl⟩
  | cons a rest ih =>
    intro s
    exact ih { s with ga := s.ga.addToHistory (env.now s.nClock (lit "15:04")) a,
                      nClock := s.nClock + 1 }

/-- C1. Starting from a freshly created session, after any sequence of `n`
calls of `addToHistory` the history is exactly the last `min n 10` appended
entries in order of insertion; it never holds more than 10 entries, and after
11 calls it is the appended entries without the first.  The calls return, and
each entry carries the time the clock showed at its call. -/
theorem addToHistory_keeps_last_ten (env : Env) (wd : GoString) (s : State)
    (actions : List GoString) (hfresh : s.ga = NewGitAssistant wd) :
    (addToHistoryEach env actions s).1 = some ()
    ∧ (addToHistoryEach env actions s).2.ga.lastActions
        = (entriesOf (stamped env s.nClock actions)).drop (actions.length - 10)
    ∧ (addToHistoryEach env actions s).2.ga.lastActions.length = min actions.length 10
    ∧ (addToHistoryEach env actions s).2.ga.lastActions.length ≤ 10
    ∧ (actions.length = 11 →
        (addToHistoryEach env actions s).2.ga.lastActions
          = (entriesOf (stamped env s.nClock actions)).tail) := by
  have hrun := addToHistoryEach_run env actions s
  have h := addAllToHistory_lastActions (stamped env s.nClock actions) (NewGitAssistant wd)
    (by simp [NewGitAssistant])
  have hl : (entriesOf (stamped env s.nClock actions)).length = actions.length := by
    simp [entriesOf, stamped_length]
  simp only [NewGitAssistant, List.nil_append, hl] at h
  refine ⟨hrun.1, ?_⟩
  rw [hrun.2, hfresh]
  simp only [NewGitAssistant]
  rw [h]
  refine ⟨rfl, ?_, ?_, ?_⟩
  · rw [List.length_drop, hl]; omega
  · rw [List.length_drop, hl]; omega
  · intro h11
    rw [h11]
    simp

/-! ## Repository statistics -/

/-- C5. `getRepoStats` returns three counts, and each query that returned
the empty text gives the count 0, whatever the other two queries returned. -/
theorem getRepoStats_empty (env : Env) (s : State) :
    ∃ c f b, (getRepoStats env s).1 = some (c, f, b)
      ∧ ((env.exec s.log.length).1 = [] → c = 0)
      ∧ ((env.exec (s.log.length + 1)).1 = [] → f = 0)
      ∧ ((env.exec (s.log.length + 2)).1 = [] → b = 0) := by
  have h : wp (getRepoStats env) (fun r _ => ∃ c f b, r = some (c, f, b)
      ∧ ((env.exec s.log.length).1 = [] → c = 0)
      ∧ ((env.exec (s.log.length + 1)).1 = [] → f = 0)
      ∧ ((env.exec (s.log.length + 2)).1 = [] → b = 0)) s := by
    rw [wp_getRepoStats]
    refine ⟨_, _, _, rfl, ?_, ?_, ?_⟩
    · intro h; rw [h]; rfl
    · intro h; simp [h]
    · intro h; simp [h]
  exact h

/-! ## Reset -/

/-- C7. `resetToCommit` starts `git log`, and then, when that succeeded and
a revision was entered, `git reset flag revision` where `flag` is `--soft`
for the selection "1", `--mixed` for "2", `--hard` for "3" and `--mixed` for
every other selection; the flag is `--hard` only for the selection "3". -/
theorem resetToCommit_flag (env : Env) (s : State) :
    (resetToCommit env s).2.log
        = s.log ++ [git s [lit "log", lit "--oneline", lit "-10"]]
            ++ (if (env.exec s.log.length).2 = none ∧ secondInput s ≠ [] then
                  [git s [lit "reset",
                    (if nextInput s = lit "1" then lit "--soft"
                     else if nextInput s = lit "2" then lit "--mixed"
                     else if nextInput s = lit "3" then lit "--hard" else lit "--mixed"),
                    secondInput s]]
                else [])
    ∧ ((if nextInput s = lit "1" then lit "--soft"
        else if nextInput s = lit "2" then lit "--mixed"
        else if nextInput s = lit "3" then lit "--hard" else lit "--mixed") = lit "--hard"
        ↔ nextInput s = lit "3") := by
  refine ⟨?_, ?_⟩
  · have h : wp (resetToCommit env) (fun _ s1 => s1.log
        = s.log ++ [git s [lit "log", lit "--oneline", lit "-10"]]
            ++ (if (env.exec s.log.length).2 = none ∧ secondInput s ≠ [] then
                  [git s [lit "reset",
                    (if nextInput s = lit "1" then lit "--soft"
                     else if nextInput s = lit "2" then lit "--mixed"
                     else if nextInput s = lit "3" then lit "--hard" else lit "--mixed"),
                    secondInput s]]
                else [])) s := by
      simp only [resetToCommit, wp_bind, wp_runCommand, wp_pure, wp_say, wp_ite, wp_getUserInput,
        wp_addToHistory, git, List.length_append, List.length_singleton]
      have hn : TrimSpace (s.stdin.headD []) = nextInput s := rfl
      have ha : TrimSpace (s.stdin.tail.headD []) = secondInput s := rfl
      simp only [hn, ha]
      clear hn ha
      generalize nextInput s = sel
      generalize secondInput s = hash
      by_cases h1 : (env.exec s.log.length).2 = none
      · by_cases h2 : hash = []
        · simp [h1, h2]
        · by_cases h3 : (env.exec (s.log.length + 1)).2 = none <;> simp [h1, h2, h3]
      · simp [h1]
    exact h
  · have h22 : lit "--mixed" ≠ lit "--hard" := by decide
    generalize nextInput s = sel
    by_cases h1 : sel = lit "1"
    · subst h1; decide
    · by_cases h2 : sel = lit "2"
      · subst h2; decide
      · by_cases h3 : sel = lit "3"
        · subst h3; decide
        · simp [h1, h2, h3, h22]

/-! ## Quick commit -/

theorem index_templates (k : Int) (h1 : 1 ≤ k) (h8 : k ≤ 8) :
    (index quickCommitTemplates (k - 1) : M GoString)
      = pure (quickCommitTemplates.getD (k - 1).toNat []) := by
  interval_cases k <;> rfl

theorem index_templates_zero :
    (index quickCommitTemplates 0 : M GoString) = pure (quickCommitTemplates.getD 0 []) := rfl

theorem templates_getD_nonempty (n : Nat) (h : n < 8) : quickCommitTemplates.getD n [] ≠ [] := by
  interval_cases n <;> decide

/-- The message `quickCommit` settles on for a selection other than "9": a
template, after the warning when the selection is not one of 1..8. -/
theorem quickCommitMessage_template (ga : GitAssistant) (sel : GoString)
    (hq : ga.quickCommits = quickCommitTemplates) (hsel : sel ≠ Itoa 9) :
    quickCommitMessage ga sel
      = (if (Atoi sel).2 ≠ none ∨ (Atoi sel).1 < 1 ∨ (Atoi sel).1 > 8 then do
            say (red (lit "❌ Choix invalide, utilisation du message par défaut") ++ lit "\n")
            pure (if (Atoi sel).2 = none ∧ 1 ≤ (Atoi sel).1 ∧ (Atoi sel).1 ≤ 8 then
                    quickCommitTemplates.getD ((Atoi sel).1 - 1).toNat []
                  else quickCommitTemplates.getD 0 [])
          else pure (if (Atoi sel).2 = none ∧ 1 ≤ (Atoi sel).1 ∧ (Atoi sel).1 ≤ 8 then
                    quickCommitTemplates.getD ((Atoi sel).1 - 1).toNat []
                  else quickCommitTemplates.getD 0 [])) := by
  have h9 : Itoa ((quickCommitTemplates.length : Nat) + 1 : Int) = Itoa 9 := rfl
  simp only [quickCommitMessage, hq, h9, hsel, if_false]
  generalize Atoi sel = idx
  show (if idx.2 ≠ none ∨ idx.1 < 1 ∨ idx.1 > 8 then _ else _) = _
  by_cases hc : idx.2 ≠ none ∨ idx.1 < 1 ∨ idx.1 > 8
  · have hn : ¬ (idx.2 = none ∧ 1 ≤ idx.1 ∧ idx.1 ≤ 8) := by
      rintro ⟨h1, h2, h3⟩
      rcases hc with hc | hc | hc
      · exact hc h1
      · omega
      · omega
    rw [if_pos hc, if_pos hc, if_neg hn, index_templates_zero]
  · have hc1 : idx.2 = none ∧ 1 ≤ idx.1 ∧ idx.1 ≤ 8 := by
      simp only [not_or, not_not, not_lt, gt_iff_lt] at hc
      exact hc
    rw [if_neg hc, if_neg hc, if_pos hc1, index_templates _ hc1.2.1 hc1.2.2]

/-- C4. In `quickCommit` with the eight predefined templates and a selection
other than "9": the commands started are `git status --porcelain`, then (when
there are changes) `git add .`, then (when that succeeded)
`git commit -m message`, where `message` is template `k-1` if the selection
parses as an integer `k` with `1 ≤ k ≤ 8` and template 0 for every other
selection; a run that succeeds records this message in the history.  The
function returns: the template index is always in range. -/
theorem quickCommit_message (env : Env) (s : State)
    (hq : s.ga.quickCommits = quickCommitTemplates) (hsel : nextInput s ≠ Itoa 9) :
    (quickCommit env s).1 ≠ none
    ∧ (quickCommit env s).2.log
        = s.log ++ [git s [lit "status", lit "--porcelain"]]
            ++ (if (env.exec s.log.length).2 = none ∧ TrimSpace (env.exec s.log.length).1 ≠ [] then
                  [git s [lit "add", lit "."]]
                    ++ (if (env.exec (s.log.length + 1)).2 = none then
                          [git s [lit "commit", lit "-m",
                            (if (Atoi (nextInput s)).2 = none ∧ 1 ≤ (Atoi (nextInput s)).1
                                ∧ (Atoi (nextInput s)).1 ≤ 8 then
                              quickCommitTemplates.getD ((Atoi (nextInput s)).1 - 1).toNat []
                            else quickCommitTemplates.getD 0 [])]]
                        else [])
                else [])
    ∧ (TrimSpace (env.exec s.log.length).1 ≠ [] → (quickCommit env s).1 = some none →
        (quickCommit env s).2.ga
          = s.ga.addToHistory (env.now s.nClock (lit "15:04"))
              (lit "Commit rapide: " ++
                (if (Atoi (nextInput s)).2 = none ∧ 1 ≤ (Atoi (nextInput s)).1
                    ∧ (Atoi (nextInput s)).1 ≤ 8 then
                  quickCommitTemplates.getD ((Atoi (nextInput s)).1 - 1).toNat []
                else quickCommitTemplates.getD 0 []))) := by
  have hmessage := quickCommitMessage_template s.ga (nextInput s) hq hsel
  have hmsg : (if (Atoi (nextInput s)).2 = none ∧ 1 ≤ (Atoi (nextInput s)).1
      ∧ (Atoi (nextInput s)).1 ≤ 8 then
        quickCommitTemplates.getD ((Atoi (nextInput s)).1 - 1).toNat []
      else quickCommitTemplates.getD 0 []) ≠ [] := by
    split_ifs with h
    · apply templates_getD_nonempty
      omega
    · decide
  revert hmessage hmsg
  generalize (if (Atoi (nextInput s)).2 = none ∧ 1 ≤ (Atoi (nextInput s)).1
      ∧ (Atoi (nextInput s)).1 ≤ 8 then
        quickCommitTemplates.getD ((Atoi (nextInput s)).1 - 1).toNat []
      else quickCommitTemplates.getD 0 []) = message
  intro hmessage hmsg
  have h : wp (quickCommit env) (fun r s1 => r ≠ none ∧ s1.log
        = s.log ++ [git s [lit "status", lit "--porcelain"]]
            ++ (if (env.exec s.log.length).2 = none ∧ TrimSpace (env.exec s.log.length).1 ≠ [] then
                  [git s [lit "add", lit "."]]
                    ++ (if (env.exec (s.log.length + 1)).2 = none then
                          [git s [lit "commit", lit "-m", message]]
                        else [])
                else [])
      ∧ (TrimSpace (env.exec s.log.length).1 ≠ [] → r = some none →
        s1.ga = s.ga.addToHistory (env.now s.nClock (lit "15:04"))
                  (lit "Commit rapide: " ++ message))) s := by
    simp only [quickCommit, addAll, commit, wp_bind, wp_runCommand, wp_pure, wp_say,
      wp_sayAll, wp_ite, wp_getUserInput, wp_addToHistory, wp_getGA, wp_timeNow, wp_getStatus]
    rw [show TrimSpace (s.stdin.headD []) = nextInput s from rfl, hmessage]
    simp only [wp_ite, wp_bind, wp_pure, wp_say, hmsg, if_false, List.length_append,
      List.length_singleton, git]
    clear hmessage
    generalize (Atoi (nextInput s)) = idx
    by_cases h1 : (env.exec s.log.length).2 = none
    · by_cases h2 : TrimSpace (env.exec s.log.length).1 = []
      · simp [h1, h2]
      · by_cases h3 : (env.exec (s.log.length + 1)).2 = none
        · by_cases h4 : (env.exec (s.log.length + 1 + 1)).2 = none <;>
            by_cases h5 : (idx.2 ≠ none ∨ idx.1 < 1 ∨ idx.1 > 8) <;>
            simp [h1, h2, h3, h4, h5]
        · by_cases h5 : (idx.2 ≠ none ∨ idx.1 < 1 ∨ idx.1 > 8) <;> simp [h1, h2, h3, h5]
    · simp [h1]
  exact h

/-! ## Branch deletion -/

/-- What `deleteBranch` does: the commands it starts, and its result and
effect on the session for an empty name and for the current branch. -/
theorem deleteBranch_spec (env : Env) (s : State) :
    (deleteBranch env s).2.log
      = s.log ++
          (if nextInput s = [] then []
           else [git s [lit "branch", lit "--show-current"]] ++
            (if nextInput s = branchAnswer (env.exec s.log.length)
                ∨ ToLower env.unicodeLower (secondInput s) ≠ lit "o" then []
             else [git s [lit "branch", lit "-d", nextInput s]] ++
              (if (env.exec (s.log.length + 1)).2 ≠ none
                  ∧ ToLower env.unicodeLower (TrimSpace (s.stdin.tail.tail.headD [])) = lit "o"
               then [git s [lit "branch", lit "-D", nextInput s]] else [])))
    ∧ (nextInput s = [] →
        (deleteBranch env s).1 = some (some (lit "nom requis")) ∧ (deleteBranch env s).2.ga = s.ga)
    ∧ (nextInput s ≠ [] → nextInput s = branchAnswer (env.exec s.log.length) →
        (deleteBranch env s).1 = some none ∧ (deleteBranch env s).2.ga = s.ga) := by
  have h : wp (deleteBranch env) (fun r s1 => s1.log
      = s.log ++
          (if nextInput s = [] then []
           else [git s [lit "branch", lit "--show-current"]] ++
            (if nextInput s = branchAnswer (env.exec s.log.length)
                ∨ ToLower env.unicodeLower (secondInput s) ≠ lit "o" then []
             else [git s [lit "branch", lit "-d", nextInput s]] ++
              (if (env.exec (s.log.length + 1)).2 ≠ none
                  ∧ ToLower env.unicodeLower (TrimSpace (s.stdin.tail.tail.headD [])) = lit "o"
               then [git s [lit "branch", lit "-D", nextInput s]] else [])))
      ∧ (nextInput s = [] → r = some (some (lit "nom requis")) ∧ s1.ga = s.ga)
      ∧ (nextInput s ≠ [] → nextInput s = branchAnswer (env.exec s.log.length) →
          r = some none ∧ s1.ga = s.ga)) s := by
    simp only [deleteBranch, forceDelete, wp_bind, wp_runCommand, wp_pure, wp_say, wp_ite,
      wp_getUserInput, wp_addToHistory, wp_getCurrentBranch, List.length_append,
      List.length_singleton, git]
    have hn : TrimSpace (s.stdin.headD []) = nextInput s := rfl
    have ha : TrimSpace (s.stdin.tail.headD []) = secondInput s := rfl
    simp only [hn, ha]
    clear hn ha
    generalize nextInput s = name
    generalize branchAnswer (env.exec s.log.length) = current
    generalize secondInput s = answer
    generalize TrimSpace (s.stdin.tail.tail.headD []) = again
    by_cases h1 : name = []
    · simp [h1]
    · by_cases h2 : name = current
      · subst h2
        simp [h1]
      · by_cases h3 : ToLower env.unicodeLower answer = lit "o"
        · by_cases h4 : (env.exec (s.log.length + 1)).2 = none
          · simp [h1, h2, h3, h4]
          · by_cases h5 : ToLower env.unicodeLower again = lit "o"
            · by_cases h6 : (env.exec (s.log.length + 1 + 1)).2 = none <;>
                simp [h1, h2, h3, h4, h5, h6]
            · simp [h1, h2, h3, h4, h5]
        · simp [h1, h2, h3]
  exact h

theorem isDeleteCmd_show_current (s : State) :
    isDeleteCmd (git s [lit "branch", lit "--show-current"]) = false := by
  have h1 : ([lit "branch", lit "--show-current"] : List GoString) ≠ [lit "branch", lit "-d"] := by
    decide
  have h2 : ([lit "branch", lit "--show-current"] : List GoString) ≠ [lit "branch", lit "-D"] := by
    decide
  simp [isDeleteCmd, git, h1, h2]

/-- C3 (as amended). In every run of `deleteBranch`, a deletion command
(`git branch -d` or `git branch -D`) is started only if the entered name
differs from the current branch name and the first confirmation input is the
yes token "o" ignoring case; and when the entered name is not empty and equals
the current branch, no deletion command is started, no error is returned and
the history is unchanged. -/
theorem deleteBranch_guarded (env : Env) (s : State) :
    (∀ c ∈ startedAfter s.log.length (deleteBranch env s).2, isDeleteCmd c = true →
        nextInput s ≠ branchAnswer (env.exec s.log.length)
          ∧ ToLower env.unicodeLower (secondInput s) = lit "o")
    ∧ (nextInput s ≠ [] → nextInput s = branchAnswer (env.exec s.log.length) →
        (∀ c ∈ startedAfter s.log.length (deleteBranch env s).2, isDeleteCmd c = false)
          ∧ (deleteBranch env s).1 = some none
          ∧ (deleteBranch env s).2.ga.lastActions = s.ga.lastActions) := by
  obtain ⟨hlog, _, hcur⟩ := deleteBranch_spec env s
  have hshow := isDeleteCmd_show_current s
  refine ⟨?_, ?_⟩
  · intro c hc hdel
    simp only [startedAfter, hlog, List.drop_left] at hc
    by_cases h1 : nextInput s = []
    · simp [h1] at hc
    · by_cases h2 : nextInput s = branchAnswer (env.exec s.log.length)
          ∨ ToLower env.unicodeLower (secondInput s) ≠ lit "o"
      · simp only [h1, h2, if_true, if_false, List.append_nil, List.mem_singleton] at hc
        rw [hc, hshow] at hdel
        exact absurd hdel (by decide)
      · simp only [not_or, not_not] at h2
        exact h2
  · intro hne heq
    obtain ⟨hr, hga⟩ := hcur hne heq
    refine ⟨?_, hr, by rw [hga]⟩
    intro c hc
    have h2 : nextInput s = branchAnswer (env.exec s.log.length)
        ∨ ToLower env.unicodeLower (secondInput s) ≠ lit "o" := Or.inl heq
    simp only [startedAfter, hlog, List.drop_left] at hc
    rw [if_neg hne, if_pos h2, List.append_nil, List.mem_singleton] at hc
    rw [hc]
    exact hshow

/-! ## The menu loop -/

theorem menuDispatch_returns (env : Env) (choice : GoString) (s : State) :
    (menuDispatch env choice s).1 = some true ↔ choice = lit "0" := by
  have h01 : lit "0" ≠ lit "1" := by decide
  have h02 : lit "0" ≠ lit "2" := by decide
  have h03 : lit "0" ≠ lit "3" := by decide
  have h04 : lit "0" ≠ lit "4" := by decide
  have h05 : lit "0" ≠ lit "5" := by decide
  have h06 : lit "0" ≠ lit "6" := by decide
  constructor
  · intro h
    by_contra h0
    have hw : wp (menuDispatch env choice) (fun r _ => r ≠ some true) s := by
      simp only [menuDispatch, h0, if_false, wp_ite, wp_bind, wp_isGitRepo, wp_pure, wp_say,
        wp_needsRepo]
      split_ifs <;>
        first
        | (refine wp_always _ _ _ ?_
           intro r s1
           cases r <;> simp [wp_reportError, wp_pure])
        | simp
    exact hw h
  · intro h
    subst h
    simp only [menuDispatch, h01, h02, h03, h04, h05, h06, if_false, if_true]
    rfl

theorem showSmartMenu_run (env : Env) (s : State) :
    (showSmartMenu env s).1 = some ()
      ∧ (showSmartMenu env s).2.ga = s.ga
      ∧ (showSmartMenu env s).2.stdin = s.stdin
      ∧ (showSmartMenu env s).2.nStat = s.nStat + 1 := by
  have h : wp (showSmartMenu env) (fun r s1 => r = some () ∧ s1.ga = s.ga ∧ s1.stdin = s.stdin
      ∧ s1.nStat = s.nStat + 1) s := by
    simp only [showSmartMenu, wp_bind, wp_clearScreen, wp_say, wp_getGA, wp_isGitRepo, wp_ite,
      wp_getCurrentBranch, wp_getRepoStats, wp_getStatus, wp_pure]
    split_ifs <;> simp
  exact h

/-- C8. One iteration of the menu loop ends the loop (returns the exit flag
`true` to `run`) exactly when the choice read is "0"; and a choice the rendered menu does not offer (the working
directory being a repository or not throughout the iteration) makes the
iteration go on with the session unchanged, no command started beyond those of
the menu rendering and no input read beyond the choice and the
acknowledgement: no executor runs. -/
theorem menuIteration_exit (env : Env) (s : State) :
    ((menuIteration env s).1 = some true ↔ nextInput s = lit "0")
    ∧ ∀ repo : Bool,
        (env.stat s.nStat = StatResult.found ↔ repo = true) →
        (env.stat (s.nStat + 1) = StatResult.found ↔ repo = true) →
        nextInput s ∉ menuChoices repo →
          (menuIteration env s).1 = some false
          ∧ (menuIteration env s).2.ga = s.ga
          ∧ (menuIteration env s).2.log = (showSmartMenu env s).2.log
          ∧ (menuIteration env s).2.stdin = s.stdin.drop 2 := by
  obtain ⟨hok, hga, hin, hst⟩ := showSmartMenu_run env s
  constructor
  · have h : wp (menuIteration env) (fun r _ => (r = some true ↔ nextInput s = lit "0")) s := by
      rw [menuIteration, wp_bind_of_run _ _ _ _ _ hok]
      simp only [wp_bind, wp_getUserInput, hin]
      rw [show TrimSpace (s.stdin.headD []) = nextInput s from rfl]
      generalize ({ (showSmartMenu env s).2 with stdin := s.stdin.tail } : State) = s1
      have hd := menuDispatch_returns env (nextInput s) s1
      generalize nextInput s = choice at hd ⊢
      rw [wp]
      rcases hres : (menuDispatch env choice s1).1 with _ | ret
      · rw [hres] at hd
        simpa using hd
      · rw [hres] at hd
        cases ret
        · simp only [Bool.false_eq_true, if_false, wp_bind, wp_say, wp_getUserInput, wp_pure]
          simpa using hd
        · simp only [if_true, wp_pure]
          simpa using hd
    exact h
  · intro repo hr1 hr2 hch
    have htt : ∀ l : List GoString, l.tail.tail = l.drop 2 := by
      intro l
      rcases l with _ | ⟨a, _ | ⟨b, l⟩⟩ <;> rfl
    have h : wp (menuIteration env) (fun r s1 => r = some false ∧ s1.ga = s.ga
        ∧ s1.log = (showSmartMenu env s).2.log ∧ s1.stdin = s.stdin.drop 2) s := by
      rw [menuIteration, wp_bind_of_run _ _ _ _ _ hok]
      simp only [wp_bind, wp_getUserInput, hin]
      rw [show TrimSpace (s.stdin.headD []) = nextInput s from rfl]
      generalize nextInput s = choice at hch ⊢
      generalize (showSmartMenu env s).2 = s1 at hga hst ⊢
      cases repo
      · simp only [menuChoices, Bool.false_eq_true, if_false, List.mem_cons, List.mem_singleton,
          List.mem_nil_iff, or_false, not_or] at hch
        simp only [Bool.false_eq_true, iff_false] at hr2
        obtain ⟨h0, h1, h2⟩ := hch
        simp only [menuDispatch, h0, h1, h2, if_false, wp_ite, wp_bind, wp_isGitRepo, wp_pure,
          wp_say, wp_needsRepo, hst, hr2, decide_False, Bool.false_eq_true, wp_getUserInput]
        split_ifs <;> simp [hga, htt]
      · simp only [menuChoices, if_true, List.mem_cons, List.mem_singleton,
          List.mem_nil_iff, or_false, not_or] at hch
        obtain ⟨h0, h1, h2, h3, h4, h5, h6⟩ := hch
        simp only [menuDispatch, h0, h1, h2, h3, h4, h5, h6, if_false, wp_ite, wp_bind, wp_pure,
          wp_say, Bool.false_eq_true, wp_getUserInput]
        simp [hga, htt]
    exact h

/-! ## Every executor changes the history by at most one entry -/

theorem HistoryStep.same (ga : GitAssistant) : HistoryStep ga ga := Or.inl rfl

theorem HistoryStep.push (ga : GitAssistant) (now action : GoString) :
    HistoryStep ga (ga.addToHistory now action) := Or.inr ⟨now, action, rfl⟩

theorem createFeatureBranch_step (env : Env) (s : State) :
    HistoryStep s.ga (createFeatureBranch env s).2.ga := by
  have h : wp (createFeatureBranch env) (fun _ s1 => HistoryStep s.ga s1.ga) s := by
    simp only [createFeatureBranch, wp_bind, wp_runCommand, wp_pure, wp_say, wp_ite,
      wp_getUserInput, wp_addToHistory]
    split_ifs
    all_goals first | exact HistoryStep.same _ | exact HistoryStep.push _ _ _
  exact h

theorem createBugfixBranch_step (env : Env) (s : State) :
    HistoryStep s.ga (createBugfixBranch env s).2.ga := by
  have h : wp (createBugfixBranch env) (fun _ s1 => HistoryStep s.ga s1.ga) s := by
    simp only [createBugfixBranch, wp_bind, wp_runCommand, wp_pure, wp_say, wp_ite,
      wp_getUserInput, wp_addToHistory]
    split_ifs
    all_goals first | exact HistoryStep.same _ | exact HistoryStep.push _ _ _
  exact h

theorem switchBranch_step (env : Env) (name : GoString) (s : State) :
    HistoryStep s.ga (switchBranch env name s).2.ga := by
  have h : wp (switchBranch env name) (fun _ s1 => HistoryStep s.ga s1.ga) s := by
    simp only [switchBranch, wp_bind, wp_runCommand, wp_pure, wp_say, wp_ite,
      wp_getUserInput, wp_addToHistory]
    split_ifs
    all_goals first | exact HistoryStep.same _ | exact HistoryStep.push _ _ _
  exact h

theorem deleteBranch_step (env : Env) (s : State) :
    HistoryStep s.ga (deleteBranch env s).2.ga := by
  have h : wp (deleteBranch env) (fun _ s1 => HistoryStep s.ga s1.ga) s := by
    simp only [deleteBranch, forceDelete, wp_bind, wp_runCommand, wp_pure, wp_say, wp_ite,
      wp_getUserInput, wp_addToHistory, wp_getCurrentBranch]
    split_ifs
    all_goals first | exact HistoryStep.same _ | exact HistoryStep.push _ _ _
  exact h

theorem mergeBranch_step (env : Env) (s : State) :
    HistoryStep s.ga (mergeBranch env s).2.ga := by
  have h : wp (mergeBranch env) (fun _ s1 => HistoryStep s.ga s1.ga) s := by
    simp only [mergeBranch, wp_bind, wp_runCommand, wp_pure, wp_say, wp_ite,
      wp_getUserInput, wp_addToHistory, wp_getCurrentBranch]
    split_ifs
    all_goals first | exact HistoryStep.same _ | exact HistoryStep.push _ _ _
  exact h

theorem intelligentBranching_step (env : Env) (s : State) :
    HistoryStep s.ga (intelligentBranching env s).2.ga := by
  have h : wp (intelligentBranching env) (fun _ s1 => HistoryStep s.ga s1.ga) s := by
    simp only [intelligentBranching, wp_bind, wp_runCommand, wp_pure, wp_say, wp_sayAll, wp_ite,
      wp_getUserInput]
    split_ifs
    · exact HistoryStep.same _
    · exact createFeatureBranch_step env _
    · exact createBugfixBranch_step env _
    · exact switchBranch_step env _ _
    · exact deleteBranch_step env _
    · exact mergeBranch_step env _
    · exact HistoryStep.same _
  exact h

theorem quickCommitMessage_frame (ga : GitAssistant) (choice : GoString) (s : State) :
    (quickCommitMessage ga choice s).2.ga = s.ga := by
  have h : wp (quickCommitMessage ga choice) (fun _ s1 => s1.ga = s.ga) s := by
    simp only [quickCommitMessage, wp_bind, wp_pure, wp_say, wp_ite, wp_getUserInput, wp_index]
    split_ifs
    all_goals first | trivial | (split <;> trivial)
  exact h

theorem quickCommit_step (env : Env) (s : State) :
    HistoryStep s.ga (quickCommit env s).2.ga := by
  have h : wp (quickCommit env) (fun _ s1 => HistoryStep s.ga s1.ga) s := by
    simp only [quickCommit, addAll, commit, wp_bind, wp_runCommand, wp_pure,
      wp_say, wp_sayAll, wp_ite, wp_getUserInput, wp_addToHistory, wp_getGA, wp_timeNow,
      wp_getStatus]
    by_cases h1 : (env.exec s.log.length).2 ≠ none
    · rw [if_pos h1]
      exact HistoryStep.same _
    · rw [if_neg h1]
      by_cases h2 : TrimSpace (env.exec s.log.length).1 = []
      · rw [if_pos h2]
        exact HistoryStep.same _
      · rw [if_neg h2]
        refine wp_of_frame _ _ _ (quickCommitMessage_frame _ _) ?_
        intro r s1 hga
        cases r
        · show HistoryStep s.ga s1.ga
          rw [hga]
          exact HistoryStep.same _
        · simp only [hga]
          split_ifs
          all_goals first | exact HistoryStep.same _ | exact HistoryStep.push _ _ _
  exact h

theorem autoSync_step (env : Env) (s : State) :
    HistoryStep s.ga (autoSync env s).2.ga := by
  have h : wp (autoSync env) (fun _ s1 => HistoryStep s.ga s1.ga) s := by
    simp only [autoSync, addAll, commit, wp_bind, wp_runCommand, wp_pure,
      wp_say, wp_ite, wp_addToHistory, wp_timeNow, wp_getStatus]
    split_ifs
    all_goals first | exact HistoryStep.same _ | exact HistoryStep.push _ _ _
  exact h

theorem initRepo_step (env : Env) (s : State) :
    HistoryStep s.ga (initRepo env s).2.ga := by
  have h : wp (initRepo env) (fun _ s1 => HistoryStep s.ga s1.ga) s := by
    simp only [initRepo, wp_bind, wp_runCommand, wp_pure, wp_say, wp_ite, wp_addToHistory]
    split_ifs
    all_goals first | exact HistoryStep.same _ | exact HistoryStep.push _ _ _
  exact h

theorem resetToCommit_step (env : Env) (s : State) :
    HistoryStep s.ga (resetToCommit env s).2.ga := by
  have h : wp (resetToCommit env) (fun _ s1 => HistoryStep s.ga s1.ga) s := by
    simp only [resetToCommit, wp_bind, wp_runCommand, wp_pure, wp_say, wp_ite,
      wp_getUserInput, wp_addToHistory]
    split_ifs
    all_goals first | exact HistoryStep.same _ | exact HistoryStep.push _ _ _
  exact h

theorem createBranchFromCommit_step (env : Env) (s : State) :
    HistoryStep s.ga (createBranchFromCommit env s).2.ga := by
  have h : wp (createBranchFromCommit env) (fun _ s1 => HistoryStep s.ga s1.ga) s := by
    simp only [createBranchFromCommit, wp_bind, wp_runCommand, wp_pure, wp_say, wp_ite,
      wp_getUserInput, wp_addToHistory]
    split_ifs
    all_goals first | exact HistoryStep.same _ | exact HistoryStep.push _ _ _
  exact h

theorem showCommitDetails_step (env : Env) (s : State) :
    HistoryStep s.ga (showCommitDetails env s).2.ga := by
  have h : wp (showCommitDetails env) (fun _ s1 => HistoryStep s.ga s1.ga) s := by
    simp only [showCommitDetails, displayColoredDiff, wp_bind, wp_runCommand, wp_pure, wp_say,
      wp_sayAll, wp_ite, wp_getUserInput]
    split_ifs
    all_goals exact HistoryStep.same _
  exact h

theorem searchInHistory_step (env : Env) (s : State) :
    HistoryStep s.ga (searchInHistory env s).2.ga := by
  have h : wp (searchInHistory env) (fun _ s1 => HistoryStep s.ga s1.ga) s := by
    simp only [searchInHistory, wp_bind, wp_runCommand, wp_pure, wp_say,
      wp_sayAll, wp_ite, wp_getUserInput]
    split_ifs
    all_goals exact HistoryStep.same _
  exact h

theorem interactiveLog_step (env : Env) (s : State) :
    HistoryStep s.ga (interactiveLog env s).2.ga := by
  have h : wp (interactiveLog env) (fun _ s1 => HistoryStep s.ga s1.ga) s := by
    simp only [interactiveLog, wp_bind, wp_runCommand, wp_pure, wp_say, wp_sayAll, wp_ite,
      wp_getUserInput]
    split_ifs
    · exact HistoryStep.same _
    · exact showCommitDetails_step env _
    · exact resetToCommit_step env _
    · exact createBranchFromCommit_step env _
    · exact searchInHistory_step env _
    · exact HistoryStep.same _
  exact h

theorem showHistory_step (s : State) : HistoryStep s.ga (showHistory s).2.ga := by
  have h : wp showHistory (fun _ s1 => HistoryStep s.ga s1.ga) s := by
    simp only [showHistory, wp_bind, wp_pure, wp_say, wp_sayAll, wp_ite, wp_getGA]
    split_ifs
    all_goals exact HistoryStep.same _
  exact h

theorem smartStatus_step (env : Env) (s : State) :
    HistoryStep s.ga (smartStatus env s).2.ga := by
  have h : wp (smartStatus env) (fun _ s1 => HistoryStep s.ga s1.ga) s := by
    simp only [smartStatus, analyzeChanges, wp_bind, wp_runCommand, wp_pure, wp_say, wp_sayAll,
      wp_ite, wp_getGA, wp_getCurrentBranch, wp_getRepoStats]
    split_ifs
    all_goals exact HistoryStep.same _
  exact h

/-! ## Computations that leave the session as it is -/

theorem frame_pure {α : Type} (a : α) : Frame (pure a : M α) := fun _ => rfl

theorem frame_bind {α β : Type} {m : M α} {f : α → M β} (hm : Frame m) (hf : ∀ a, Frame (f a)) :
    Frame (m >>= f) := by
  intro s
  have h : wp (m >>= f) (fun _ s1 => s1.ga = s.ga) s := by
    rw [wp_bind]
    refine wp_of_frame _ _ _ hm ?_
    intro r s1 hga
    cases r
    · exact hga
    · exact (hf _ s1).trans hga
  exact h

theorem frame_ite {α : Type} (c : Prop) [Decidable c] {a b : M α} (ha : Frame a) (hb : Frame b) :
    Frame (if c then a else b) := by
  split
  · exact ha
  · exact hb

theorem frame_say (t : GoString) : Frame (say t) := fun _ => rfl

theorem frame_sayAll (ts : List GoString) : Frame (sayAll ts) := fun _ => rfl

theorem frame_runCommand (env : Env) (command : GoString) (args : List GoString) :
    Frame (runCommand env command args) := fun _ => rfl

theorem frame_index {α : Type} (l : List α) (i : Int) : Frame (index l i) := by
  intro s
  have h : wp (index l i) (fun _ s1 => s1.ga = s.ga) s := by
    rw [wp_index]
    split
    · rfl
    · split <;> rfl
  exact h

theorem frame_sliceFrom (t : GoString) (i : Nat) : Frame (sliceFrom t i) := by
  intro s
  have h : wp (sliceFrom t i) (fun _ s1 => s1.ga = s.ga) s := by
    rw [wp_sliceFrom]
    split <;> rfl
  exact h

theorem frame_getRepoStats (env : Env) : Frame (getRepoStats env) := by
  intro s
  have h : wp (getRepoStats env) (fun _ s1 => s1.ga = s.ga) s := by
    rw [wp_getRepoStats]
  exact h

theorem frame_analyzeFileTypes (env : Env) (files : List GoString) :
    Frame (analyzeFileTypes env files) := fun _ => rfl

theorem frame_insightsBranchLoop (lines : List GoString) : Frame (insightsBranchLoop lines) := by
  induction lines with
  | nil => exact frame_pure ()
  | cons line rest ih =>
    simp only [insightsBranchLoop]
    repeat' with_reducible first
      | exact ih
      | exact frame_say _
      | exact frame_pure _
      | exact frame_sliceFrom _ _
      | apply frame_ite
      | apply frame_bind
      | intro _

theorem frame_insightsSizeLoop (lines : List GoString) : Frame (insightsSizeLoop lines) := by
  induction lines with
  | nil => exact frame_pure ()
  | cons line rest ih =>
    simp only [insightsSizeLoop]
    repeat' with_reducible first
      | exact ih
      | exact frame_say _
      | exact frame_pure _
      | exact frame_index _ _
      | apply frame_ite
      | apply frame_bind
      | intro _

theorem frame_projectInsights (env : Env) : Frame (projectInsights env) := by
  simp only [projectInsights]
  repeat' with_reducible first
    | exact frame_say _
    | exact frame_pure _
    | exact frame_runCommand _ _ _
    | exact frame_getRepoStats _
    | exact frame_analyzeFileTypes _ _
    | exact frame_insightsBranchLoop _
    | exact frame_insightsSizeLoop _
    | apply frame_ite
    | apply frame_bind
    | intro _

theorem projectInsights_step (env : Env) (s : State) :
    HistoryStep s.ga (projectInsights env s).2.ga :=
  Or.inl (frame_projectInsights env s)

/-! ## The history under every operation -/

theorem HistoryStep.appendOnly {before after : GitAssistant} (h : HistoryStep before after) :
    AppendOnly before.lastActions after.lastActions := by
  rcases h with h | ⟨now, action, h⟩
  · exact Or.inl (by rw [h])
  · exact Or.inr ⟨historyEntry now action, by rw [h]; rfl⟩

theorem setWorkingDirectory_ga (env : Env) (newPath : GoString) (s : State) :
    (setWorkingDirectory env newPath s).2.ga = s.ga
      ∨ ((setWorkingDirectory env newPath s).1 = some none
          ∧ (setWorkingDirectory env newPath s).2.ga
              = { s.ga with workingDir := (env.abs s.nStat newPath).1, lastActions := [] }) := by
  have h : wp (setWorkingDirectory env newPath) (fun r s1 => s1.ga = s.ga
      ∨ (r = some none
          ∧ s1.ga = { s.ga with workingDir := (env.abs s.nStat newPath).1, lastActions := [] })) s := by
    simp only [setWorkingDirectory, wp_bind, wp_pure, wp_say, wp_ite, wp_filepathAbs, wp_osStat,
      wp_getGA, wp_modifyGA]
    split_ifs <;> simp
  exact h

theorem changeDirectory_ga (env : Env) (s : State) :
    (changeDirectory env s).2.ga = s.ga
      ∨ ((changeDirectory env s).1 = some none
          ∧ (changeDirectory env s).2.ga.lastActions = []) := by
  have h : wp (changeDirectory env) (fun r s1 => s1.ga = s.ga
      ∨ (r = some none ∧ s1.ga.lastActions = [])) s := by
    simp only [changeDirectory, wp_bind, wp_say, wp_getUserInput]
    generalize TrimSpace (s.stdin.headD []) = newPath
    have hset := setWorkingDirectory_ga env newPath
      { s with stdin := s.stdin.tail, out := s.out ++ [lit "📁 Nouveau répertoire: "] }
    refine wp_mono _ (fun r s1 => s1.ga = s.ga ∨ (r = some none
      ∧ s1.ga = { s.ga with workingDir := (env.abs s.nStat newPath).1, lastActions := [] }))
      _ _ hset ?_
    intro r s1 h
    rcases h with h | ⟨hr, h⟩
    · exact Or.inl h
    · exact Or.inr ⟨hr, by rw [h]⟩
  exact h

theorem setWorkingDirectory_outcome (env : Env) (newPath : GoString) (s : State) :
    wp (setWorkingDirectory env newPath) (DirectoryOutcome env newPath s) s := by
  simp only [setWorkingDirectory, wp_bind, wp_pure, wp_say, wp_ite, wp_filepathAbs, wp_osStat,
    wp_getGA, wp_modifyGA, DirectoryOutcome]
  split_ifs with h1 h2 h3
  · simp [h1]
  · simp [h1, h2]
  · simp [h1, h3]
  · simp [h1, not_not.mp h2, h3]

theorem changeDirectory_outcome (env : Env) (s : State) :
    wp (changeDirectory env) (DirectoryOutcome env (nextInput s) s) s := by
  simp only [changeDirectory, wp_bind, wp_say, wp_getUserInput]
  exact setWorkingDirectory_outcome env (TrimSpace (s.stdin.headD []))
    { s with stdin := s.stdin.tail, out := s.out ++ [lit "📁 Nouveau répertoire: "] }

/-- C9 (as amended). Every executor leaves the history unchanged or with one
entry appended (the oldest evicted at capacity 10).  A change of the working
directory succeeds exactly when the path is not empty, `filepath.Abs` returns
no error and the directory is not reported missing; when it succeeds the
history is emptied (and the working directory is the absolute path), and when
it fails the session, and so the history, is unchanged. -/
theorem history_append_only_or_reset (op : Op) (env : Env) (s : State) :
    (op.changesDirectory = false →
      AppendOnly s.ga.lastActions (op.run env s).2.ga.lastActions)
    ∧ (op.changesDirectory = true →
        ((op.run env s).1 = some none ↔
            op.enteredPath s ≠ [] ∧ (env.abs s.nStat (op.enteredPath s)).2 = none
              ∧ env.stat s.nStat ≠ StatResult.notExist)
        ∧ ((op.run env s).1 = some none →
            (op.run env s).2.ga.lastActions = []
            ∧ (op.run env s).2.ga.workingDir = (env.abs s.nStat (op.enteredPath s)).1)
        ∧ ((op.run env s).1 ≠ some none → (op.run env s).2.ga = s.ga)) := by
  cases op with
  | quickCommit => exact ⟨fun _ => (quickCommit_step env s).appendOnly, fun h => by cases h⟩
  | intelligentBranching =>
    exact ⟨fun _ => (intelligentBranching_step env s).appendOnly, fun h => by cases h⟩
  | createFeatureBranch =>
    exact ⟨fun _ => (createFeatureBranch_step env s).appendOnly, fun h => by cases h⟩
  | createBugfixBranch =>
    exact ⟨fun _ => (createBugfixBranch_step env s).appendOnly, fun h => by cases h⟩
  | switchBranch name =>
    exact ⟨fun _ => (switchBranch_step env name s).appendOnly, fun h => by cases h⟩
  | deleteBranch => exact ⟨fun _ => (deleteBranch_step env s).appendOnly, fun h => by cases h⟩
  | mergeBranch => exact ⟨fun _ => (mergeBranch_step env s).appendOnly, fun h => by cases h⟩
  | showHistory => exact ⟨fun _ => (showHistory_step s).appendOnly, fun h => by cases h⟩
  | interactiveLog =>
    exact ⟨fun _ => (interactiveLog_step env s).appendOnly, fun h => by cases h⟩
  | showCommitDetails =>
    exact ⟨fun _ => (showCommitDetails_step env s).appendOnly, fun h => by cases h⟩
  | searchInHistory =>
    exact ⟨fun _ => (searchInHistory_step env s).appendOnly, fun h => by cases h⟩
  | resetToCommit => exact ⟨fun _ => (resetToCommit_step env s).appendOnly, fun h => by cases h⟩
  | createBranchFromCommit =>
    exact ⟨fun _ => (createBranchFromCommit_step env s).appendOnly, fun h => by cases h⟩
  | projectInsights =>
    exact ⟨fun _ => (projectInsights_step env s).appendOnly, fun h => by cases h⟩
  | smartStatus => exact ⟨fun _ => (smartStatus_step env s).appendOnly, fun h => by cases h⟩
  | initRepo => exact ⟨fun _ => (initRepo_step env s).appendOnly, fun h => by cases h⟩
  | autoSync => exact ⟨fun _ => (autoSync_step env s).appendOnly, fun h => by cases h⟩
  | changeDirectory =>
    have h := changeDirectory_outcome env s
    refine ⟨fun hd => (by cases hd), fun _ => ⟨h.1, fun hr => ?_, h.2.2⟩⟩
    have hga := h.2.1 hr
    constructor
    · rw [Op.run, hga]
    · rw [Op.run, hga]
      rfl
  | setWorkingDirectory newPath =>
    have h := setWorkingDirectory_outcome env newPath s
    refine ⟨fun hd => (by cases hd), fun _ => ⟨h.1, fun hr => ?_, h.2.2⟩⟩
    have hga := h.2.1 hr
    constructor
    · rw [Op.run, hga]
    · rw [Op.run, hga]
      rfl

/-- C9, counterexample to the claim as stated: with one entry in the
history, a successful `setWorkingDirectory` leaves a history that is neither
the previous one nor the previous one with an entry appended. -/
theorem setWorkingDirectory_resets_history :
    ¬ AppendOnly (startState (lit "/old") [lit "[12:00] Dépôt initialisé"] []).ga.lastActions
        ((Op.setWorkingDirectory (lit "/new")).run (constEnv [] none StatResult.found)
          (startState (lit "/old") [lit "[12:00] Dépôt initialisé"] [])).2.ga.lastActions := by
  have h : ((Op.setWorkingDirectory (lit "/new")).run (constEnv [] none StatResult.found)
      (startState (lit "/old") [lit "[12:00] Dépôt initialisé"] [])).2.ga.lastActions = [] := by
    decide
  rw [h]
  rintro (h | ⟨e, h⟩)
  · exact absurd h (by simp [startState])
  · simp [startState, pushEvict] at h

/-! ## Status analysis -/

/-- C2, the code at the failing input: the first line of the status text
" M foo.txt\n" starts with a space, yet `analyzeChanges` files it under
"modified", with the path cut to "oo.txt"; the same line in second position
goes to no list.  The lists of the example "A  new.txt\nM  old.txt\n?? temp.log\n"
are those stated, and `analyzeChanges` returns for every status text. -/
theorem statusChanges_leading_space :
    statusChanges (lit " M foo.txt\n")
        = { added := [], modified := [lit "oo.txt"], deleted := [], untracked := [] }
    ∧ statusChanges (lit "A  new.txt\n M foo.txt\n")
        = { added := [lit "new.txt"], modified := [], deleted := [], untracked := [] }
    ∧ statusChanges (lit "A  new.txt\nM  old.txt\n?? temp.log\n")
        = { added := [lit "new.txt"], modified := [lit "old.txt"], deleted := [],
            untracked := [lit "temp.log"] }
    ∧ (∀ (status : GoString) (s : State), (analyzeChanges status s).1 = some ()) := by
  refine ⟨by decide, by decide, by decide, ?_⟩
  intro status s
  have h : wp (analyzeChanges status) (fun r _ => r = some ()) s := by
    simp only [analyzeChanges, wp_bind, wp_say, wp_sayAll]
  exact h

theorem ne_of_take_ne {a b : GoString} (n : Nat) (h : a.take n ≠ b.take n) : a ≠ b := by
  intro hab
  exact h (by rw [hab])

theorem report_line_ne (p rest t : GoString) (h : p.take 4 ≠ t.take 4) (hp : 4 ≤ p.length) :
    p ++ rest ≠ t := by
  apply ne_of_take_ne 4
  rw [List.take_append_of_le_length hp]
  exact h

theorem suggestSync_not_in_report (c : Changes) : suggestSync ∉ changesReport c := by
  have h1 : ∀ r, lit "  ✅ Ajoutés (" ++ r ≠ suggestSync :=
    fun r => report_line_ne _ r _ (by decide) (by decide)
  have h2 : ∀ r, lit "  ✏️ Modifiés (" ++ r ≠ suggestSync :=
    fun r => report_line_ne _ r _ (by decide) (by decide)
  have h3 : ∀ r, lit "  🗑️ Supprimés (" ++ r ≠ suggestSync :=
    fun r => report_line_ne _ r _ (by decide) (by decide)
  have h4 : ∀ r, lit "  📂 Non suivis (" ++ r ≠ suggestSync :=
    fun r => report_line_ne _ r _ (by decide) (by decide)
  intro hmem
  simp only [changesReport, List.mem_append, List.append_assoc] at hmem
  rcases hmem with hm | hm | hm | hm
  · split at hm
    · exact h1 _ (List.mem_singleton.mp hm).symm
    · exact absurd hm (List.not_mem_nil _)
  · split at hm
    · exact h2 _ (List.mem_singleton.mp hm).symm
    · exact absurd hm (List.not_mem_nil _)
  · split at hm
    · exact h3 _ (List.mem_singleton.mp hm).symm
    · exact absurd hm (List.not_mem_nil _)
  · split at hm
    · exact h4 _ (List.mem_singleton.mp hm).symm
    · exact absurd hm (List.not_mem_nil _)

theorem suggestVerifyDeleted_not_in_report (c : Changes) :
    suggestVerifyDeleted ∉ changesReport c := by
  have h1 : ∀ r, lit "  ✅ Ajoutés (" ++ r ≠ suggestVerifyDeleted :=
    fun r => report_line_ne _ r _ (by decide) (by decide)
  have h2 : ∀ r, lit "  ✏️ Modifiés (" ++ r ≠ suggestVerifyDeleted :=
    fun r => report_line_ne _ r _ (by decide) (by decide)
  have h3 : ∀ r, lit "  🗑️ Supprimés (" ++ r ≠ suggestVerifyDeleted :=
    fun r => report_line_ne _ r _ (by decide) (by decide)
  have h4 : ∀ r, lit "  📂 Non suivis (" ++ r ≠ suggestVerifyDeleted :=
    fun r => report_line_ne _ r _ (by decide) (by decide)
  intro hmem
  simp only [changesReport, List.mem_append, List.append_assoc] at hmem
  rcases hmem with hm | hm | hm | hm
  · split at hm
    · exact h1 _ (List.mem_singleton.mp hm).symm
    · exact absurd hm (List.not_mem_nil _)
  · split at hm
    · exact h2 _ (List.mem_singleton.mp hm).symm
    · exact absurd hm (List.not_mem_nil _)
  · split at hm
    · exact h3 _ (List.mem_singleton.mp hm).symm
    · exact absurd hm (List.not_mem_nil _)
  · split at hm
    · exact h4 _ (List.mem_singleton.mp hm).symm
    · exact absurd hm (List.not_mem_nil _)

theorem analyzeChanges_out (status : GoString) (s : State) :
    (analyzeChanges status s).2.out
      = s.out ++ ([lit "📝 Changements détectés:\n"] ++ changesReport (statusChanges status)
          ++ [lit "\n💡 Suggestions:\n"] ++ changesSuggestions (statusChanges status)) := by
  have h : wp (analyzeChanges status) (fun _ s1 => s1.out
      = s.out ++ ([lit "📝 Changements détectés:\n"] ++ changesReport (statusChanges status)
          ++ [lit "\n💡 Suggestions:\n"] ++ changesSuggestions (statusChanges status))) s := by
    simp only [analyzeChanges, wp_bind, wp_say, wp_sayAll, List.append_assoc]
  exact h

/-- C10 (as amended). Among the text `analyzeChanges` prints, the suggestion
to stage and commit appears exactly when one of the lists added, modified,
untracked is not empty, and the suggestion to verify the deletions exactly
when the list deleted is not empty. -/
theorem analyzeChanges_suggestions (status : GoString) (s : State) :
    (suggestSync ∈ (analyzeChanges status s).2.out.drop s.out.length
        ↔ (statusChanges status).added ≠ [] ∨ (statusChanges status).modified ≠ []
            ∨ (statusChanges status).untracked ≠ [])
    ∧ (suggestVerifyDeleted ∈ (analyzeChanges status s).2.out.drop s.out.length
        ↔ (statusChanges status).deleted ≠ []) := by
  rw [analyzeChanges_out, List.drop_left]
  have hs1 : suggestSync ≠ lit "📝 Changements détectés:\n" := by decide
  have hs2 : suggestSync ≠ lit "\n💡 Suggestions:\n" := by decide
  have hs3 : suggestSync ≠ suggestVerifyDeleted := by decide
  have hv1 : suggestVerifyDeleted ≠ lit "📝 Changements détectés:\n" := by decide
  have hv2 : suggestVerifyDeleted ≠ lit "\n💡 Suggestions:\n" := by decide
  have hr1 := suggestSync_not_in_report (statusChanges status)
  have hr2 := suggestVerifyDeleted_not_in_report (statusChanges status)
  generalize statusChanges status = c at hr1 hr2 ⊢
  have hlen : ∀ l : List GoString, l.length > 0 ↔ l ≠ [] := by
    intro l; cases l <;> simp
  constructor
  · simp only [List.mem_append, List.mem_singleton, hs1, hs2, hr1, false_or, or_false,
      changesSuggestions]
    by_cases hc : c.untracked.length > 0 ∨ c.modified.length > 0 ∨ c.added.length > 0
    · have hc2 : c.added ≠ [] ∨ c.modified ≠ [] ∨ c.untracked ≠ [] := by
        simp only [hlen] at hc; tauto
      simp only [if_pos hc, List.mem_singleton, true_or, true_iff]
      exact hc2
    · have hc2 : ¬ (c.added ≠ [] ∨ c.modified ≠ [] ∨ c.untracked ≠ []) := by
        simp only [hlen] at hc; tauto
      simp only [if_neg hc, List.not_mem_nil, false_or, hc2, iff_false]
      split
      · simp [hs3]
      · simp
  · simp only [List.mem_append, List.mem_singleton, hv1, hv2, hr2, false_or, or_false,
      changesSuggestions]
    by_cases hd : c.deleted.length > 0
    · have hd2 : c.deleted ≠ [] := (hlen _).mp hd
      simp [if_pos hd, hd2]
    · have hd2 : ¬ c.deleted ≠ [] := fun h => hd ((hlen _).mpr h)
      simp only [if_neg hd, List.not_mem_nil, or_false, hd2, iff_false]
      split
      · simp [hs3.symm]
      · simp

/-- C10, counterexample to the claim as stated: for the status text
"D  gone.txt\n" the list deleted is not empty, yet the suggestion to stage and
commit is not printed. -/
theorem analyzeChanges_deleted_only :
    (statusChanges (lit "D  gone.txt\n")).deleted ≠ []
      ∧ suggestSync ∉ (analyzeChanges (lit "D  gone.txt\n") (startState (lit "/w") [] [])).2.out := by
  decide

/-! ## File types -/

theorem mapIncr_keys (m : List kv) (k : GoString) :
    (mapIncr m k).map kv.Key = if k ∈ m.map kv.Key then m.map kv.Key else m.map kv.Key ++ [k] := by
  induction m with
  | nil => simp [mapIncr]
  | cons e m ih =>
    by_cases h : e.Key = k
    · simp [mapIncr, h]
    · have h2 : ¬ k = e.Key := fun h3 => h h3.symm
      simp only [mapIncr, h, if_false, List.map_cons, ih, List.mem_cons, h2, false_or]
      split <;> simp

theorem mapIncr_mem (m : List kv) (k : GoString) (g : kv) (hnd : (m.map kv.Key).Nodup)
    (hg : g ∈ mapIncr m k) :
    (g ∈ m ∧ g.Key ≠ k)
      ∨ (g.Key = k ∧ ((∃ e ∈ m, e.Key = k ∧ g.Value = e.Value + 1)
                      ∨ (k ∉ m.map kv.Key ∧ g.Value = 1))) := by
  induction m with
  | nil =>
    simp only [mapIncr, List.mem_singleton] at hg
    subst hg
    exact Or.inr ⟨rfl, Or.inr ⟨by simp, rfl⟩⟩
  | cons e m ih =>
    simp only [List.map_cons, List.nodup_cons] at hnd
    by_cases h : e.Key = k
    · simp only [mapIncr, h, if_true, List.mem_cons] at hg
      rcases hg with hg | hg
      · subst hg
        exact Or.inr ⟨rfl, Or.inl ⟨e, List.mem_cons_self _ _, h, rfl⟩⟩
      · have hk : g.Key ≠ k := by
          intro hk
          apply hnd.1
          rw [h, ← hk]
          exact List.mem_map_of_mem _ hg
        exact Or.inl ⟨List.mem_cons_of_mem _ hg, hk⟩
    · simp only [mapIncr, h, if_false, List.mem_cons] at hg
      rcases hg with hg | hg
      · subst hg
        exact Or.inl ⟨List.mem_cons_self _ _, h⟩
      · rcases ih hnd.2 hg with ⟨h1, h2⟩ | ⟨h1, h2 | h2⟩
        · exact Or.inl ⟨List.mem_cons_of_mem _ h1, h2⟩
        · obtain ⟨e2, he2, hk2, hv2⟩ := h2
          exact Or.inr ⟨h1, Or.inl ⟨e2, List.mem_cons_of_mem _ he2, hk2, hv2⟩⟩
        · have h3 : ¬ k = e.Key := fun h3 => h h3.symm
          exact Or.inr ⟨h1, Or.inr ⟨by simp [h3, h2.1], h2.2⟩⟩

theorem mapIncr_nodup (m : List kv) (k : GoString) (hnd : (m.map kv.Key).Nodup) :
    ((mapIncr m k).map kv.Key).Nodup := by
  rw [mapIncr_keys]
  split
  · exact hnd
  · rename_i h
    rw [List.nodup_append]
    refine ⟨hnd, List.nodup_singleton _, ?_⟩
    intro a ha hb
    rw [List.mem_singleton] at hb
    exact h (hb ▸ ha)

theorem countUnder_append (pre : List GoString) (f key : GoString) :
    countUnder (pre ++ [f]) key
      = countUnder pre key + (if f ≠ [] ∧ extKey f = key then 1 else 0) := by
  simp only [countUnder, List.filter_append, List.length_append]
  congr 1
  by_cases h : f ≠ [] ∧ extKey f = key
  · simp [List.filter, h]
  · simp only [if_neg h]
    simp [List.filter, h]

theorem countUnder_pos (pre : List GoString) (key : GoString) (h : 0 < countUnder pre key) :
    ∃ f ∈ pre, f ≠ [] ∧ extKey f = key := by
  unfold countUnder at h
  obtain ⟨f, hf⟩ := List.exists_mem_of_length_pos h
  rw [List.mem_filter] at hf
  exact ⟨f, hf.1, by simpa using hf.2⟩

/-- The invariant of the first loop of `analyzeFileTypes`: after the paths
`pre`, the map `m` has one entry per key, each with the number of paths counted
under its key, and a key for every non-empty path. -/
theorem extCounts_invariant (rest : List GoString) :
    ∀ (m : List kv) (pre : List GoString),
      (m.map kv.Key).Nodup →
      (∀ g ∈ m, g.Value = (countUnder pre g.Key : Int) ∧ 0 < g.Value) →
      (∀ f ∈ pre, f ≠ [] → extKey f ∈ m.map kv.Key) →
      ((rest.foldl (fun m file => if file = [] then m else mapIncr m (extKey file)) m).map
          kv.Key).Nodup
      ∧ (∀ g ∈ rest.foldl (fun m file => if file = [] then m else mapIncr m (extKey file)) m,
          g.Value = (countUnder (pre ++ rest) g.Key : Int) ∧ 0 < g.Value)
      ∧ (∀ f ∈ pre ++ rest, f ≠ [] →
          extKey f ∈ (rest.foldl (fun m file => if file = [] then m
            else mapIncr m (extKey file)) m).map kv.Key) := by
  induction rest with
  | nil =>
    intro m pre h1 h2 h3
    rw [List.append_nil]
    exact ⟨h1, h2, h3⟩
  | cons f rest ih =>
    intro m pre h1 h2 h3
    have hrw : pre ++ f :: rest = (pre ++ [f]) ++ rest := by simp
    rw [List.foldl_cons, hrw]
    by_cases hf : f = []
    · rw [if_pos hf]
      apply ih m (pre ++ [f]) h1
      · intro g hg
        rw [countUnder_append]
        simpa [hf] using h2 g hg
      · intro f2 hf2 hne
        rw [List.mem_append, List.mem_singleton] at hf2
        rcases hf2 with hf2 | hf2
        · exact h3 f2 hf2 hne
        · exact absurd (hf2.trans hf) hne
    · rw [if_neg hf]
      apply ih (mapIncr m (extKey f)) (pre ++ [f]) (mapIncr_nodup m _ h1)
      · intro g hg
        rw [countUnder_append]
        rcases mapIncr_mem m _ g h1 hg with ⟨hm, hk⟩ | ⟨hk, ⟨e, he, hek, hv⟩ | ⟨hnk, hv⟩⟩
        · have hk2 : ¬ (f ≠ [] ∧ extKey f = g.Key) := fun h => hk h.2.symm
          rw [if_neg hk2]
          simpa using h2 g hm
        · have hk2 : f ≠ [] ∧ extKey f = g.Key := ⟨hf, hk.symm⟩
          rw [if_pos hk2, hv, (h2 e he).1, hek, hk]
          have := (h2 e he).2
          constructor
          · push_cast; ring
          · rw [(h2 e he).1] at this
            omega
        · have hk2 : f ≠ [] ∧ extKey f = g.Key := ⟨hf, hk.symm⟩
          have hzero : countUnder pre g.Key = 0 := by
            by_contra hpos
            obtain ⟨f2, hf2, hne2, hkey2⟩ := countUnder_pos pre g.Key (Nat.pos_of_ne_zero hpos)
            apply hnk
            rw [← hk, ← hkey2]
            exact h3 f2 hf2 hne2
          rw [if_pos hk2, hv, hzero]
          simp
      · intro f2 hf2 hne
        rw [mapIncr_keys]
        rw [List.mem_append, List.mem_singleton] at hf2
        rcases hf2 with hf2 | hf2
        · split
          · exact h3 f2 hf2 hne
          · exact List.mem_append_left _ (h3 f2 hf2 hne)
        · subst hf2
          split
          · assumption
          · simp

theorem extCounts_spec (files : List GoString) :
    ((extCounts files).map kv.Key).Nodup
    ∧ (∀ g ∈ extCounts files, g.Value = (countUnder files g.Key : Int) ∧ 0 < g.Value)
    ∧ (∀ f ∈ files, f ≠ [] → extKey f ∈ (extCounts files).map kv.Key) := by
  have h := extCounts_invariant files [] [] (by simp) (by simp) (by simp)
  simpa [extCounts] using h

theorem perm_pair_sorted (l : List kv) (x y : kv) (hp : l.Perm [x, y])
    (hs : l.Pairwise (fun a b => ¬ (b.Value > a.Value))) (hxy : y.Value < x.Value) :
    l = [x, y] := by
  have hlen : l.length = 2 := by simpa using hp.length_eq
  obtain ⟨a, b, rfl⟩ := List.length_eq_two.mp hlen
  have ha : a ∈ [x, y] := hp.subset (List.mem_cons_self _ _)
  have hb : b ∈ [x, y] := hp.subset (by simp)
  have hx : x ∈ [a, b] := hp.symm.subset (List.mem_cons_self _ _)
  have hy : y ∈ [a, b] := hp.symm.subset (by simp)
  simp only [List.pairwise_cons, List.mem_singleton, forall_eq, List.mem_cons,
    List.mem_nil_iff, or_false] at hs ha hb hx hy
  have hab := hs.1
  rcases ha with rfl | rfl
  · rcases hb with rfl | rfl
    · rcases hy with rfl | rfl <;> exact absurd hxy (lt_irrefl _)
    · rfl
  · rcases hb with rfl | rfl
    · exact absurd hxy (by simpa using hab)
    · rcases hx with rfl | rfl <;> exact absurd hxy (lt_irrefl _)

/-- C6. Whatever order the map is visited in and whatever `sort.Slice` does
with equal counts: `analyzeFileTypes` counts each non-empty path under its
extension (or under "sans extension"), and prints at most 5 groups, in
non-increasing order of count, none of the groups left out having a larger
count than a printed one; for `a.go, b.go, README, c.go` it prints `.go` with
3, then "sans extension" with 1. -/
theorem analyzeFileTypes_report (env : Env) (files : List GoString)
    (hrange : ∀ m, (env.mapRange m).Perm m)
    (hsort : ∀ l, (env.sortSlice l).Perm l
      ∧ (env.sortSlice l).Pairwise (fun a b => ¬ (b.Value > a.Value))) :
    ((extCounts files).map kv.Key).Nodup
    ∧ (∀ g ∈ extCounts files, g.Value = (countUnder files g.Key : Int) ∧ 0 < g.Value)
    ∧ (∀ f ∈ files, f ≠ [] → extKey f ∈ (extCounts files).map kv.Key)
    ∧ (reportedFileTypes env files).length = min 5 (extCounts files).length
    ∧ (reportedFileTypes env files).Pairwise (fun a b => a.Value ≥ b.Value)
    ∧ (∀ r ∈ reportedFileTypes env files, r ∈ extCounts files)
    ∧ (∀ u ∈ extCounts files, u ∉ reportedFileTypes env files →
        ∀ r ∈ reportedFileTypes env files, u.Value ≤ r.Value)
    ∧ (∀ s, (analyzeFileTypes env files s).2.out
        = s.out ++ ([lit "📂 Types de fichiers:\n"]
            ++ (reportedFileTypes env files).map
                (fun e => lit "  • " ++ e.Key ++ lit ": " ++ Itoa e.Value ++ lit " fichiers\n")
            ++ [lit "\n"]))
    ∧ reportedFileTypes env [lit "a.go", lit "b.go", lit "README", lit "c.go"]
        = [{ Key := lit ".go", Value := 3 }, { Key := noExtension, Value := 1 }] := by
  obtain ⟨h1, h2, h3⟩ := extCounts_spec files
  have hperm : ∀ fs, (env.sortSlice (env.mapRange (extCounts fs))).Perm (extCounts fs) :=
    fun fs => (hsort _).1.trans (hrange _)
  have hpw : ∀ fs, (env.sortSlice (env.mapRange (extCounts fs))).Pairwise
      (fun a b => ¬ (b.Value > a.Value)) := fun fs => (hsort _).2
  refine ⟨h1, h2, h3, ?_, ?_, ?_, ?_, ?_, ?_⟩
  · rw [reportedFileTypes, List.length_take, (hperm files).length_eq]
  · have hsub : (reportedFileTypes env files).Sublist
        (env.sortSlice (env.mapRange (extCounts files))) := List.take_sublist _ _
    exact (List.Pairwise.sublist hsub (hpw files)).imp (fun h => le_of_not_lt h)
  · intro r hr
    exact (hperm files).subset (List.mem_of_mem_take hr)
  · intro u hu hnot r hr
    have hu2 : u ∈ env.sortSlice (env.mapRange (extCounts files)) := (hperm files).symm.subset hu
    rw [← List.take_append_drop 5 (env.sortSlice (env.mapRange (extCounts files)))] at hu2
    rw [List.mem_append] at hu2
    rcases hu2 with hu2 | hu2
    · exact absurd hu2 hnot
    · have hall := hpw files
      rw [← List.take_append_drop 5 (env.sortSlice (env.mapRange (extCounts files))),
        List.pairwise_append] at hall
      exact le_of_not_lt (hall.2.2 r hr u hu2)
  · intro s
    have h : wp (analyzeFileTypes env files) (fun _ s1 => s1.out
        = s.out ++ ([lit "📂 Types de fichiers:\n"]
            ++ (reportedFileTypes env files).map
                (fun e => lit "  • " ++ e.Key ++ lit ": " ++ Itoa e.Value ++ lit " fichiers\n")
            ++ [lit "\n"])) s := by
      simp only [analyzeFileTypes, wp_bind, wp_say, wp_sayAll, List.append_assoc]
    exact h
  · have hc : extCounts [lit "a.go", lit "b.go", lit "README", lit "c.go"]
        = [{ Key := lit ".go", Value := 3 }, { Key := noExtension, Value := 1 }] := by decide
    have hp := hperm [lit "a.go", lit "b.go", lit "README", lit "c.go"]
    have hs := hpw [lit "a.go", lit "b.go", lit "README", lit "c.go"]
    rw [hc] at hp
    rw [hc] at hs
    have hl := perm_pair_sorted _ _ _ hp hs (by decide)
    rw [reportedFileTypes, hc, hl]
    rfl

theorem sortSlice_constEnv (out : GoString) (err : GoError) (st : StatResult) (l : List kv) :
    ((constEnv out err st).sortSlice l).Perm l
      ∧ ((constEnv out err st).sortSlice l).Pairwise (fun a b => ¬ (b.Value > a.Value)) := by
  refine ⟨List.perm_insertionSort _ l, ?_⟩
  have htotal : ∀ a b : kv, a.Value ≥ b.Value ∨ b.Value ≥ a.Value := fun a b => le_total _ _
  have htrans : ∀ a b c : kv, a.Value ≥ b.Value → b.Value ≥ c.Value → a.Value ≥ c.Value :=
    fun a b c h1 h2 => le_trans h2 h1
  haveI : IsTotal kv (fun a b => a.Value ≥ b.Value) := ⟨htotal⟩
  haveI : IsTrans kv (fun a b => a.Value ≥ b.Value) := ⟨htrans⟩
  have hs := List.sorted_insertionSort (fun a b : kv => a.Value ≥ b.Value) l
  exact (List.Pairwise.imp (fun h => not_lt_of_ge h) hs)

/-- C6, witness: with a map visited in order of insertion and an insertion
sort, the groups printed for `a.go, b.go, README, c.go`. -/
theorem analyzeFileTypes_report_witness :
    reportedFileTypes (constEnv [] none StatResult.found)
        [lit "a.go", lit "b.go", lit "README", lit "c.go"]
      = [{ Key := lit ".go", Value := 3 }, { Key := noExtension, Value := 1 }] :=
  (analyzeFileTypes_report (constEnv [] none StatResult.found)
    [lit "a.go", lit "b.go", lit "README", lit "c.go"]
    (fun _ => List.Perm.refl _) (sortSlice_constEnv [] none StatResult.found)).2.2.2.2.2.2.2.2

/-! ## Instances -/

/-- C1, instance: after eleven calls in a fresh session the history is the
eleven entries without the first. -/
theorem addToHistory_keeps_last_ten_witness :
    (startState (lit "/w") [] []).ga = NewGitAssistant (lit "/w")
      ∧ elevenActions.length = 11
      ∧ (addToHistoryEach (constEnv [] none StatResult.found) elevenActions
            (startState (lit "/w") [] [])).2.ga.lastActions
          = (entriesOf (stamped (constEnv [] none StatResult.found)
              (startState (lit "/w") [] []).nClock elevenActions)).tail :=
  ⟨rfl, by decide,
   (addToHistory_keeps_last_ten (constEnv [] none StatResult.found) (lit "/w")
      (startState (lit "/w") [] []) elevenActions rfl).2.2.2.2 (by decide)⟩

/-- C3, counterexample to the claim as stated: with nothing entered and a
current-branch query that answers the empty name (detached head), the entered
name equals the current branch name, yet `deleteBranch` returns the error
"nom requis". -/
theorem deleteBranch_empty_name_is_error :
    nextInput (startState (lit "/w") [] [])
        = branchAnswer ((constEnv [] none StatResult.found).exec
            (startState (lit "/w") [] []).log.length)
      ∧ (deleteBranch (constEnv [] none StatResult.found) (startState (lit "/w") [] [])).1
          = some (some (lit "nom requis")) := by
  decide

/-- C3, instance: the name "main" entered while "main" is the current
branch. -/
theorem deleteBranch_guarded_witness :
    nextInput (startState (lit "/w") [] [lit "main"]) ≠ []
      ∧ nextInput (startState (lit "/w") [] [lit "main"])
          = branchAnswer ((constEnv (lit "main\n") none StatResult.found).exec
              (startState (lit "/w") [] [lit "main"]).log.length)
      ∧ (deleteBranch (constEnv (lit "main\n") none StatResult.found)
          (startState (lit "/w") [] [lit "main"])).1 = some none :=
  ⟨by decide, by decide,
    ((deleteBranch_guarded (constEnv (lit "main\n") none StatResult.found)
      (startState (lit "/w") [] [lit "main"])).2 (by decide) (by decide)).2.1⟩

/-- C4, instance: the selection "99" with changes to commit; the history
records template 0. -/
theorem quickCommit_message_witness :
    nextInput (startState (lit "/w") [] [lit "99"]) ≠ Itoa 9
      ∧ (quickCommit (constEnv (lit "M  a.txt\n") none StatResult.found)
          (startState (lit "/w") [] [lit "99"])).2.ga.lastActions
        = [lit "[12:34] Commit rapide: 🚀 Mise à jour rapide"] := by
  have h := (quickCommit_message (constEnv (lit "M  a.txt\n") none StatResult.found)
    (startState (lit "/w") [] [lit "99"]) rfl (by decide)).2.2 (by decide) (by decide)
  refine ⟨by decide, ?_⟩
  rw [h]
  decide

/-- C5, instance: three queries that return the empty text give the counts
0, 0 and 0. -/
theorem getRepoStats_empty_witness :
    (getRepoStats (constEnv [] none StatResult.found) (startState (lit "/w") [] [])).1
      = some (0, 0, 0) := by
  obtain ⟨c, f, b, h, hc, hf, hb⟩ :=
    getRepoStats_empty (constEnv [] none StatResult.found) (startState (lit "/w") [] [])
  rw [h, hc rfl, hf rfl, hb rfl]

/-- C7, instance: the selection "3" and the revision "HEAD~1". -/
theorem resetToCommit_flag_witness :
    (resetToCommit (constEnv [] none StatResult.found)
        (startState (lit "/w") [] [lit "3", lit "HEAD~1"])).2.log
      = [{ dir := lit "/w", name := lit "git", args := [lit "log", lit "--oneline", lit "-10"] },
         { dir := lit "/w", name := lit "git",
           args := [lit "reset", lit "--hard", lit "HEAD~1"] }] :=
  (resetToCommit_flag (constEnv [] none StatResult.found)
    (startState (lit "/w") [] [lit "3", lit "HEAD~1"])).1.trans (by decide)

/-- C8, instance: the choice "7" in a repository. -/
theorem menuIteration_exit_witness :
    nextInput (startState (lit "/w") [] [lit "7", lit ""]) ∉ menuChoices true
      ∧ (menuIteration (constEnv [] none StatResult.found)
          (startState (lit "/w") [] [lit "7", lit ""])).1 = some false
      ∧ (menuIteration (constEnv [] none StatResult.found)
          (startState (lit "/w") [] [lit "7", lit ""])).2.ga
        = (startState (lit "/w") [] [lit "7", lit ""]).ga :=
  ⟨by decide,
    ((menuIteration_exit (constEnv [] none StatResult.found)
      (startState (lit "/w") [] [lit "7", lit ""])).2 true (by decide) (by decide)
      (by decide)).1,
    ((menuIteration_exit (constEnv [] none StatResult.found)
      (startState (lit "/w") [] [lit "7", lit ""])).2 true (by decide) (by decide)
      (by decide)).2.1⟩

/-- C9, instance: `initRepo` on an empty history appends one entry; a
`setWorkingDirectory` to an existing directory succeeds and empties the
history. -/
theorem history_append_only_or_reset_witness :
    AppendOnly (startState (lit "/w") [] []).ga.lastActions
        (Op.initRepo.run (constEnv [] none StatResult.found)
          (startState (lit "/w") [] [])).2.ga.lastActions
    ∧ ((Op.setWorkingDirectory (lit "/new")).run (constEnv [] none StatResult.found)
          (startState (lit "/old") [lit "[12:00] Dépôt initialisé"] [])).1 = some none
    ∧ ((Op.setWorkingDirectory (lit "/new")).run (constEnv [] none StatResult.found)
          (startState (lit "/old") [lit "[12:00] Dépôt initialisé"] [])).2.ga.lastActions = [] :=
  ⟨(history_append_only_or_reset Op.initRepo (constEnv [] none StatResult.found)
      (startState (lit "/w") [] [])).1 rfl,
   by decide,
   (((history_append_only_or_reset (Op.setWorkingDirectory (lit "/new"))
      (constEnv [] none StatResult.found)
      (startState (lit "/old") [lit "[12:00] Dépôt initialisé"] [])).2 rfl).2.1 (by decide)).1⟩

/-- C10, instance: an untracked file only. -/
theorem analyzeChanges_suggestions_witness :
    suggestSync ∈ (analyzeChanges (lit "?? temp.log\n") (startState (lit "/w") [] [])).2.out.drop
      (startState (lit "/w") [] []).out.length :=
  (analyzeChanges_suggestions (lit "?? temp.log\n") (startState (lit "/w") [] [])).1.mpr
    (by decide)

/-! ## A failing executor leaves the history as it is -/

theorem commandsOk_one (env : Env) (n : Nat) (h : (env.exec n).2 = none) :
    commandsOk env n (n + 1) := by
  intro k h1 h2
  have hk : k = n := by omega
  rw [hk]; exact h

theorem commandsOk_append (env : Env) (a b c : Nat) (h1 : commandsOk env a b)
    (h2 : commandsOk env b c) : commandsOk env a c := by
  intro k hk1 hk2
  by_cases hb : k < b
  · exact h1 k hk1 hb
  · exact h2 k (by omega) hk2

theorem HistoryOnSuccess.unchanged (env : Env) (strict : Bool) (s : State) (r : Option GoError)
    (s1 : State) (h : s1.ga = s.ga) : HistoryOnSuccess env strict s r s1 :=
  ⟨fun _ => h, fun hne => absurd h hne⟩

theorem HistoryOnSuccess.appended (env : Env) (strict : Bool) (s s1 : State)
    (hlt : s.log.length < s1.log.length) (hlast : (env.exec (s1.log.length - 1)).2 = none)
    (hall : strict = true → commandsOk env s.log.length s1.log.length) :
    HistoryOnSuccess env strict s (some none) s1 :=
  ⟨fun h => absurd rfl h, fun _ => ⟨hlt, hlast, hall⟩⟩

theorem createFeatureBranch_onSuccess (env : Env) (s : State) :
    wp (createFeatureBranch env) (HistoryOnSuccess env true s) s := by
  simp only [createFeatureBranch, wp_bind, wp_runCommand, wp_pure, wp_say, wp_ite,
    wp_getUserInput, wp_addToHistory]
  split_ifs with h1 h2
  · exact HistoryOnSuccess.unchanged _ _ _ _ _ rfl
  · exact HistoryOnSuccess.unchanged _ _ _ _ _ rfl
  · refine HistoryOnSuccess.appended _ _ _ _ ?_ ?_ ?_
    · simp
    · simpa using h2
    · intro _
      simpa using commandsOk_one env s.log.length (by simpa using h2)

theorem commandsOk_two (env : Env) (n : Nat) (h0 : (env.exec n).2 = none)
    (h1 : (env.exec (n + 1)).2 = none) : commandsOk env n (n + 1 + 1) :=
  commandsOk_append env n (n + 1) (n + 1 + 1) (commandsOk_one env n h0)
    (commandsOk_one env (n + 1) h1)

theorem commandsOk_three (env : Env) (n : Nat) (h0 : (env.exec n).2 = none)
    (h1 : (env.exec (n + 1)).2 = none) (h2 : (env.exec (n + 1 + 1)).2 = none) :
    commandsOk env n (n + 1 + 1 + 1) :=
  commandsOk_append env n (n + 1 + 1) (n + 1 + 1 + 1) (commandsOk_two env n h0 h1)
    (commandsOk_one env (n + 1 + 1) h2)

theorem createBugfixBranch_onSuccess (env : Env) (s : State) :
    wp (createBugfixBranch env) (HistoryOnSuccess env true s) s := by
  simp only [createBugfixBranch, wp_bind, wp_runCommand, wp_pure, wp_say, wp_ite,
    wp_getUserInput, wp_addToHistory]
  split_ifs with h1 h2
  · exact HistoryOnSuccess.unchanged _ _ _ _ _ rfl
  · exact HistoryOnSuccess.unchanged _ _ _ _ _ rfl
  · refine HistoryOnSuccess.appended _ _ _ _ ?_ ?_ ?_
    · simp
    · simpa using h2
    · intro _
      simpa using commandsOk_one env s.log.length (by simpa using h2)

theorem switchBranch_onSuccess (env : Env) (name : GoString) (s : State) :
    wp (switchBranch env name) (HistoryOnSuccess env true s) s := by
  simp only [switchBranch, wp_bind, wp_runCommand, wp_pure, wp_say, wp_ite,
    wp_getUserInput, wp_addToHistory]
  split_ifs <;>
    first
    | exact HistoryOnSuccess.unchanged _ _ _ _ _ rfl
    | (rename_i h2
       refine HistoryOnSuccess.appended _ _ _ _ ?_ ?_ ?_
       · simp
       · simpa using h2
       · intro _
         simpa using commandsOk_one env s.log.length (by simpa using h2))

theorem initRepo_onSuccess (env : Env) (s : State) :
    wp (initRepo env) (HistoryOnSuccess env true s) s := by
  simp only [initRepo, wp_bind, wp_runCommand, wp_pure, wp_say, wp_ite, wp_addToHistory]
  split_ifs with h2
  · exact HistoryOnSuccess.unchanged _ _ _ _ _ rfl
  · refine HistoryOnSuccess.appended _ _ _ _ ?_ ?_ ?_
    · simp
    · simpa using h2
    · intro _
      simpa using commandsOk_one env s.log.length (by simpa using h2)

theorem mergeBranch_onSuccess (env : Env) (s : State) :
    wp (mergeBranch env) (HistoryOnSuccess env false s) s := by
  simp only [mergeBranch, wp_bind, wp_runCommand, wp_pure, wp_say, wp_ite,
    wp_getUserInput, wp_addToHistory, wp_getCurrentBranch, List.length_append,
    List.length_singleton]
  split_ifs with h1 h2
  · exact HistoryOnSuccess.unchanged _ _ _ _ _ rfl
  · exact HistoryOnSuccess.unchanged _ _ _ _ _ rfl
  · refine HistoryOnSuccess.appended _ _ _ _ ?_ ?_ ?_
    · simp
    · simpa using h2
    · intro h
      cases h

theorem deleteBranch_onSuccess (env : Env) (s : State) :
    wp (deleteBranch env) (HistoryOnSuccess env false s) s := by
  simp only [deleteBranch, forceDelete, wp_bind, wp_runCommand, wp_pure, wp_say, wp_ite,
    wp_getUserInput, wp_addToHistory, wp_getCurrentBranch, List.length_append,
    List.length_singleton]
  split_ifs <;>
    first
    | exact HistoryOnSuccess.unchanged _ _ _ _ _ rfl
    | (rename_i h2
       refine HistoryOnSuccess.appended _ _ _ _ ?_ ?_ ?_
       · simp
       · simpa using h2
       · intro h
         cases h)

theorem resetToCommit_onSuccess (env : Env) (s : State) :
    wp (resetToCommit env) (HistoryOnSuccess env true s) s := by
  simp only [resetToCommit, wp_bind, wp_runCommand, wp_pure, wp_say, wp_ite,
    wp_getUserInput, wp_addToHistory, List.length_append, List.length_singleton]
  by_cases h1 : (env.exec s.log.length).2 = none
  · by_cases h2 : (env.exec (s.log.length + 1)).2 = none
    · have hall := commandsOk_two env s.log.length h1 h2
      split_ifs <;>
        first
        | exact HistoryOnSuccess.unchanged _ _ _ _ _ rfl
        | (refine HistoryOnSuccess.appended _ _ _ _ ?_ ?_ ?_
           · simp
           · simpa using h2
           · intro _
             simpa using hall)
    · split_ifs <;> exact HistoryOnSuccess.unchanged _ _ _ _ _ rfl
  · split_ifs <;> exact HistoryOnSuccess.unchanged _ _ _ _ _ rfl

theorem createBranchFromCommit_onSuccess (env : Env) (s : State) :
    wp (createBranchFromCommit env) (HistoryOnSuccess env true s) s := by
  simp only [createBranchFromCommit, wp_bind, wp_runCommand, wp_pure, wp_say, wp_ite,
    wp_getUserInput, wp_addToHistory, List.length_append, List.length_singleton]
  by_cases h1 : (env.exec s.log.length).2 = none
  · by_cases h2 : (env.exec (s.log.length + 1)).2 = none
    · have hall := commandsOk_two env s.log.length h1 h2
      split_ifs <;>
        first
        | exact HistoryOnSuccess.unchanged _ _ _ _ _ rfl
        | (refine HistoryOnSuccess.appended _ _ _ _ ?_ ?_ ?_
           · simp
           · simpa using h2
           · intro _
             simpa using hall)
    · split_ifs <;> exact HistoryOnSuccess.unchanged _ _ _ _ _ rfl
  · split_ifs <;> exact HistoryOnSuccess.unchanged _ _ _ _ _ rfl

theorem ok_of_not_ne {e : GoError} (h : ¬ e ≠ none) : e = none := not_not.mp h

theorem absurd_of_some_ok {x : GoString} {P : Prop} (h : ¬ (some x : GoError) ≠ none) : P :=
  absurd (Option.some_ne_none x) h

theorem HistoryOnSuccess.appendedAt (env : Env) (strict : Bool) (s s1 : State) (n : Nat)
    (hlen : s1.log.length = n + 1) (hlast : (env.exec n).2 = none) (hle : s.log.length ≤ n)
    (hall : strict = true → commandsOk env s.log.length (n + 1)) :
    HistoryOnSuccess env strict s (some none) s1 := by
  refine HistoryOnSuccess.appended env strict s s1 ?_ ?_ ?_
  · omega
  · rw [hlen]; exact hlast
  · rw [hlen]; exact hall

theorem autoSync_onSuccess (env : Env) (s : State) :
    wp (autoSync env) (HistoryOnSuccess env true s) s := by
  simp only [autoSync, addAll, commit, wp_bind, wp_runCommand, wp_pure,
    wp_say, wp_ite, wp_addToHistory, wp_timeNow, wp_getStatus, List.length_append,
    List.length_singleton]
  split_ifs <;>
    first
    | exact HistoryOnSuccess.unchanged _ _ _ _ _ rfl
    | exact absurd_of_some_ok ‹_›
    | exact HistoryOnSuccess.appendedAt _ _ _ _ (s.log.length + 1 + 1) (by simp)
        (ok_of_not_ne ‹_›) (by omega)
        (fun _ => commandsOk_three env _ (ok_of_not_ne ‹_›) (ok_of_not_ne ‹_›)
          (ok_of_not_ne ‹_›))

theorem quickCommitMessage_keeps (ga : GitAssistant) (choice : GoString) (s : State) :
    (quickCommitMessage ga choice s).2.ga = s.ga
      ∧ (quickCommitMessage ga choice s).2.log = s.log := by
  have h : wp (quickCommitMessage ga choice) (fun _ s1 => s1.ga = s.ga ∧ s1.log = s.log) s := by
    simp only [quickCommitMessage, wp_bind, wp_pure, wp_say, wp_ite, wp_getUserInput, wp_index]
    split_ifs
    all_goals first | exact ⟨trivial, trivial⟩ | (split <;> exact ⟨trivial, trivial⟩)
  exact h

theorem wp_of_keeps {α : Type} (m : M α) (Q : Option α → State → Prop) (s : State)
    (hf : ∀ s0, (m s0).2.ga = s0.ga ∧ (m s0).2.log = s0.log)
    (h : ∀ r s1, s1.ga = s.ga → s1.log = s.log → Q r s1) : wp m Q s :=
  h _ _ (hf s).1 (hf s).2

theorem quickCommit_onSuccess (env : Env) (s : State) :
    wp (quickCommit env) (HistoryOnSuccess env true s) s := by
  simp only [quickCommit, addAll, commit, wp_bind, wp_runCommand, wp_pure,
    wp_say, wp_sayAll, wp_ite, wp_getUserInput, wp_addToHistory, wp_getGA, wp_timeNow,
    wp_getStatus]
  by_cases h1 : (env.exec s.log.length).2 ≠ none
  · rw [if_pos h1]
    exact HistoryOnSuccess.unchanged _ _ _ _ _ rfl
  · rw [if_neg h1]
    by_cases h2 : TrimSpace (env.exec s.log.length).1 = []
    · rw [if_pos h2]
      exact HistoryOnSuccess.unchanged _ _ _ _ _ rfl
    · rw [if_neg h2]
      refine wp_of_keeps _ _ _ (quickCommitMessage_keeps _ _) ?_
      intro r s1 hga hlog
      have hlen : s1.log.length = s.log.length + 1 := by rw [hlog]; simp
      cases r
      · exact HistoryOnSuccess.unchanged _ _ _ _ _ hga
      · simp only [hlen, List.length_append, List.length_singleton]
        split_ifs <;>
          first
          | exact HistoryOnSuccess.unchanged _ _ _ _ _ hga
          | exact absurd_of_some_ok ‹_›
          | exact HistoryOnSuccess.appendedAt _ _ _ _ (s.log.length + 1 + 1) (by simp [hlen])
              (ok_of_not_ne ‹_›) (by omega)
              (fun _ => commandsOk_three env _ (ok_of_not_ne h1) (ok_of_not_ne ‹_›)
                (ok_of_not_ne ‹_›))

theorem HistoryOnSuccess.extend (env : Env) (b b' : Bool) (s s0 : State) (r : Option GoError)
    (s1 : State) (h : HistoryOnSuccess env b s0 r s1) (hga : s0.ga = s.ga)
    (hle : s.log.length ≤ s0.log.length)
    (hok : b' = true → b = true ∧ commandsOk env s.log.length s0.log.length) :
    HistoryOnSuccess env b' s r s1 := by
  refine ⟨fun hr => (h.1 hr).trans hga, fun hne => ?_⟩
  have h2 := h.2 (by rw [hga]; exact hne)
  refine ⟨by omega, h2.2.1, fun hb => ?_⟩
  exact commandsOk_append _ _ _ _ (hok hb).2 (h2.2.2 (hok hb).1)

theorem showCommitDetails_onSuccess (env : Env) (s : State) :
    wp (showCommitDetails env) (HistoryOnSuccess env true s) s := by
  simp only [showCommitDetails, displayColoredDiff, wp_bind, wp_runCommand, wp_pure, wp_say,
    wp_sayAll, wp_ite, wp_getUserInput]
  split_ifs
  all_goals exact HistoryOnSuccess.unchanged _ _ _ _ _ rfl

theorem searchInHistory_onSuccess (env : Env) (s : State) :
    wp (searchInHistory env) (HistoryOnSuccess env true s) s := by
  simp only [searchInHistory, wp_bind, wp_runCommand, wp_pure, wp_say,
    wp_sayAll, wp_ite, wp_getUserInput]
  split_ifs
  all_goals exact HistoryOnSuccess.unchanged _ _ _ _ _ rfl

theorem showHistory_onSuccess (env : Env) (s : State) :
    wp showHistory (HistoryOnSuccess env true s) s := by
  simp only [showHistory, wp_bind, wp_pure, wp_say, wp_sayAll, wp_ite, wp_getGA]
  split_ifs
  all_goals exact HistoryOnSuccess.unchanged _ _ _ _ _ rfl

theorem smartStatus_onSuccess (env : Env) (s : State) :
    wp (smartStatus env) (HistoryOnSuccess env true s) s := by
  simp only [smartStatus, analyzeChanges, wp_bind, wp_runCommand, wp_pure, wp_say, wp_sayAll,
    wp_ite, wp_getGA, wp_getCurrentBranch, wp_getRepoStats]
  split_ifs
  all_goals exact HistoryOnSuccess.unchanged _ _ _ _ _ rfl

theorem projectInsights_onSuccess (env : Env) (s : State) :
    wp (projectInsights env) (HistoryOnSuccess env true s) s :=
  HistoryOnSuccess.unchanged _ _ _ _ _ (frame_projectInsights env s)

theorem intelligentBranching_onSuccess (env : Env) (s : State) :
    wp (intelligentBranching env) (HistoryOnSuccess env false s) s := by
  simp only [intelligentBranching, wp_bind, wp_runCommand, wp_pure, wp_say, wp_sayAll, wp_ite,
    wp_getUserInput]
  split_ifs
  · exact HistoryOnSuccess.unchanged _ _ _ _ _ rfl
  · exact wp_mono _ _ _ _ (createFeatureBranch_onSuccess env _)
      (fun r s1 h => HistoryOnSuccess.extend env true false s _ r s1 h rfl (by simp) (fun hb => by cases hb))
  · exact wp_mono _ _ _ _ (createBugfixBranch_onSuccess env _)
      (fun r s1 h => HistoryOnSuccess.extend env true false s _ r s1 h rfl (by simp) (fun hb => by cases hb))
  · exact wp_mono _ _ _ _ (switchBranch_onSuccess env _ _)
      (fun r s1 h => HistoryOnSuccess.extend env true false s _ r s1 h rfl (by simp) (fun hb => by cases hb))
  · exact wp_mono _ _ _ _ (deleteBranch_onSuccess env _)
      (fun r s1 h => HistoryOnSuccess.extend env false false s _ r s1 h rfl (by simp) (fun hb => by cases hb))
  · exact wp_mono _ _ _ _ (mergeBranch_onSuccess env _)
      (fun r s1 h => HistoryOnSuccess.extend env false false s _ r s1 h rfl (by simp) (fun hb => by cases hb))
  · exact HistoryOnSuccess.unchanged _ _ _ _ _ rfl

theorem interactiveLog_onSuccess (env : Env) (s : State) :
    wp (interactiveLog env) (HistoryOnSuccess env true s) s := by
  simp only [interactiveLog, wp_bind, wp_runCommand, wp_pure, wp_say, wp_sayAll, wp_ite,
    wp_getUserInput]
  split_ifs with h1
  · exact HistoryOnSuccess.unchanged _ _ _ _ _ rfl
  · exact wp_mono _ _ _ _ (showCommitDetails_onSuccess env _)
      (fun r s1 h => HistoryOnSuccess.extend env true true s _ r s1 h rfl (by simp)
        (fun _ => ⟨rfl, by simpa using commandsOk_one env s.log.length (ok_of_not_ne h1)⟩))
  · exact wp_mono _ _ _ _ (resetToCommit_onSuccess env _)
      (fun r s1 h => HistoryOnSuccess.extend env true true s _ r s1 h rfl (by simp)
        (fun _ => ⟨rfl, by simpa using commandsOk_one env s.log.length (ok_of_not_ne h1)⟩))
  · exact wp_mono _ _ _ _ (createBranchFromCommit_onSuccess env _)
      (fun r s1 h => HistoryOnSuccess.extend env true true s _ r s1 h rfl (by simp)
        (fun _ => ⟨rfl, by simpa using commandsOk_one env s.log.length (ok_of_not_ne h1)⟩))
  · exact wp_mono _ _ _ _ (searchInHistory_onSuccess env _)
      (fun r s1 h => HistoryOnSuccess.extend env true true s _ r s1 h rfl (by simp)
        (fun _ => ⟨rfl, by simpa using commandsOk_one env s.log.length (ok_of_not_ne h1)⟩))
  · exact HistoryOnSuccess.unchanged _ _ _ _ _ rfl

theorem HistoryOnSuccess.claim {env : Env} {b : Bool} {s s1 : State} {r : Option GoError}
    (h : HistoryOnSuccess env b s r s1) (t : Bool) (ht : t = false → b = true) :
    (r ≠ some none → s1.ga = s.ga)
    ∧ (s1.ga ≠ s.ga →
        r = some none
        ∧ s.log.length < s1.log.length
        ∧ (env.exec (s1.log.length - 1)).2 = none
        ∧ (t = false → commandsOk env s.log.length s1.log.length)) := by
  refine ⟨h.1, fun hne => ?_⟩
  have h2 := h.2 hne
  refine ⟨?_, h2.1, h2.2.1, fun hf => h2.2.2 (ht hf)⟩
  by_contra hr
  exact hne (h.1 hr)

/-- C11 (as amended). Whenever an operation does not return without error
(it returns an error, or panics) the session, and so the history, is as before.
When an executor has changed the session it has returned without error, it has
started a command, the last command it started ended without error and, unless
the executor is one that goes on after a failed command (`deleteBranch`,
`mergeBranch`, the branch menu), every command it started ended without
error. -/
theorem executor_error_keeps_history (op : Op) (env : Env) (s : State) :
    ((op.run env s).1 ≠ some none → (op.run env s).2.ga = s.ga)
    ∧ (op.changesDirectory = false → (op.run env s).2.ga ≠ s.ga →
        (op.run env s).1 = some none
        ∧ s.log.length < (op.run env s).2.log.length
        ∧ (env.exec ((op.run env s).2.log.length - 1)).2 = none
        ∧ (op.toleratesFailure = false →
            commandsOk env s.log.length (op.run env s).2.log.length)) := by
  cases op with
  | quickCommit =>
    have h := (quickCommit_onSuccess env s).claim false (fun _ => rfl)
    exact ⟨h.1, fun _ => h.2⟩
  | intelligentBranching =>
    have h := (intelligentBranching_onSuccess env s).claim true (fun hf => by cases hf)
    exact ⟨h.1, fun _ => h.2⟩
  | createFeatureBranch =>
    have h := (createFeatureBranch_onSuccess env s).claim false (fun _ => rfl)
    exact ⟨h.1, fun _ => h.2⟩
  | createBugfixBranch =>
    have h := (createBugfixBranch_onSuccess env s).claim false (fun _ => rfl)
    exact ⟨h.1, fun _ => h.2⟩
  | switchBranch name =>
    have h := (switchBranch_onSuccess env name s).claim false (fun _ => rfl)
    exact ⟨h.1, fun _ => h.2⟩
  | deleteBranch =>
    have h := (deleteBranch_onSuccess env s).claim true (fun hf => by cases hf)
    exact ⟨h.1, fun _ => h.2⟩
  | mergeBranch =>
    have h := (mergeBranch_onSuccess env s).claim true (fun hf => by cases hf)
    exact ⟨h.1, fun _ => h.2⟩
  | showHistory =>
    have h := (showHistory_onSuccess env s).claim false (fun _ => rfl)
    exact ⟨h.1, fun _ => h.2⟩
  | interactiveLog =>
    have h := (interactiveLog_onSuccess env s).claim false (fun _ => rfl)
    exact ⟨h.1, fun _ => h.2⟩
  | showCommitDetails =>
    have h := (showCommitDetails_onSuccess env s).claim false (fun _ => rfl)
    exact ⟨h.1, fun _ => h.2⟩
  | searchInHistory =>
    have h := (searchInHistory_onSuccess env s).claim false (fun _ => rfl)
    exact ⟨h.1, fun _ => h.2⟩
  | resetToCommit =>
    have h := (resetToCommit_onSuccess env s).claim false (fun _ => rfl)
    exact ⟨h.1, fun _ => h.2⟩
  | createBranchFromCommit =>
    have h := (createBranchFromCommit_onSuccess env s).claim false (fun _ => rfl)
    exact ⟨h.1, fun _ => h.2⟩
  | projectInsights =>
    have h := (projectInsights_onSuccess env s).claim false (fun _ => rfl)
    exact ⟨h.1, fun _ => h.2⟩
  | smartStatus =>
    have h := (smartStatus_onSuccess env s).claim false (fun _ => rfl)
    exact ⟨h.1, fun _ => h.2⟩
  | initRepo =>
    have h := (initRepo_onSuccess env s).claim false (fun _ => rfl)
    exact ⟨h.1, fun _ => h.2⟩
  | autoSync =>
    have h := (autoSync_onSuccess env s).claim false (fun _ => rfl)
    exact ⟨h.1, fun _ => h.2⟩
  | changeDirectory =>
    refine ⟨fun hr => ?_, fun hd => by cases hd⟩
    rcases changeDirectory_ga env s with h | ⟨h, _⟩
    · exact h
    · exact absurd h hr
  | setWorkingDirectory newPath =>
    refine ⟨fun hr => ?_, fun hd => by cases hd⟩
    rcases setWorkingDirectory_ga env newPath s with h | ⟨h, _⟩
    · exact h
    · exact absurd h hr

/-- C11, instance: in `quickCommit` the staging succeeds and the commit fails,
and the history is as before; in `createFeatureBranch` the checkout succeeds and
the history has changed. -/
theorem executor_error_keeps_history_witness :
    ((Op.quickCommit.run (scriptEnv commitFailsScript)
          (startState (lit "/w") [lit "[12:00] Dépôt initialisé"] [lit "1"])).1 ≠ some none
      ∧ (Op.quickCommit.run (scriptEnv commitFailsScript)
          (startState (lit "/w") [lit "[12:00] Dépôt initialisé"] [lit "1"])).2.ga
        = (startState (lit "/w") [lit "[12:00] Dépôt initialisé"] [lit "1"]).ga)
    ∧ ((Op.createFeatureBranch.run (constEnv [] none StatResult.found)
          (startState (lit "/w") [] [lit "menu"])).2.ga
        ≠ (startState (lit "/w") [] [lit "menu"]).ga
      ∧ (Op.createFeatureBranch.run (constEnv [] none StatResult.found)
          (startState (lit "/w") [] [lit "menu"])).1 = some none) :=
  ⟨⟨by decide,
    (executor_error_keeps_history Op.quickCommit (scriptEnv commitFailsScript)
      (startState (lit "/w") [lit "[12:00] Dépôt initialisé"] [lit "1"])).1 (by decide)⟩,
   ⟨by decide,
    ((executor_error_keeps_history Op.createFeatureBranch (constEnv [] none StatResult.found)
      (startState (lit "/w") [] [lit "menu"])).2 rfl (by decide)).1⟩⟩

/-- C11, counterexample to the claim as stated: in `deleteBranch` the command
`git branch -d old` fails, the forced deletion is confirmed and
`git branch -D old` succeeds; `deleteBranch` returns without error and an entry
is added to the history, although one of its commands failed. -/
theorem deleteBranch_forced_adds_entry :
    (deleteBranch (scriptEnv forcedDeleteScript)
        (startState (lit "/w") [] [lit "old", lit "o", lit "o"])).1 = some none
    ∧ (deleteBranch (scriptEnv forcedDeleteScript)
        (startState (lit "/w") [] [lit "old", lit "o", lit "o"])).2.ga.lastActions
      = [lit "[12:34] Branche supprimée: old"]
    ∧ (deleteBranch (scriptEnv forcedDeleteScript)
        (startState (lit "/w") [] [lit "old", lit "o", lit "o"])).2.log
      = [{ dir := lit "/w", name := lit "git", args := [lit "branch", lit "--show-current"] },
         { dir := lit "/w", name := lit "git", args := [lit "branch", lit "-d", lit "old"] },
         { dir := lit "/w", name := lit "git", args := [lit "branch", lit "-D", lit "old"] }]
    ∧ ((scriptEnv forcedDeleteScript).exec 1).2 ≠ none := by
  decide

/-! ## Quick commit in a clean repository -/

/-- C12 (as amended). When the status query of `quickCommit` returns a text
that is empty or only whitespace, `quickCommit` does nothing: it reads no
input, starts no command but the status query (neither `git add` nor
`git commit`) and leaves the session, and so the history, unchanged.  It prints
the information message and returns without error when the query ended without
error, and returns the error of the query when the query failed. -/
theorem quickCommit_clean (env : Env) (s : State)
    (hempty : TrimSpace (env.exec s.log.length).1 = []) :
    ((env.exec s.log.length).2 = none →
        (quickCommit env s).1 = some none
        ∧ (quickCommit env s).2.out = s.out ++ [lit "ℹ️ Aucun changement à commiter\n"])
    ∧ ((env.exec s.log.length).2 ≠ none →
        (quickCommit env s).1 = some (env.exec s.log.length).2)
    ∧ (quickCommit env s).2.stdin = s.stdin
    ∧ (quickCommit env s).2.log = s.log ++ [git s [lit "status", lit "--porcelain"]]
    ∧ (quickCommit env s).2.ga = s.ga
    ∧ (quickCommit env s).2.nClock = s.nClock := by
  have h : wp (quickCommit env) (fun r s1 =>
      ((env.exec s.log.length).2 = none →
          r = some none ∧ s1.out = s.out ++ [lit "ℹ️ Aucun changement à commiter\n"])
      ∧ ((env.exec s.log.length).2 ≠ none → r = some (env.exec s.log.length).2)
      ∧ s1.stdin = s.stdin
      ∧ s1.log = s.log ++ [git s [lit "status", lit "--porcelain"]]
      ∧ s1.ga = s.ga
      ∧ s1.nClock = s.nClock) s := by
    simp only [quickCommit, wp_bind, wp_runCommand, wp_getStatus]
    by_cases h1 : (env.exec s.log.length).2 ≠ none
    · rw [wp_ite, if_pos h1, wp_pure]
      exact ⟨fun h => absurd h h1, fun _ => rfl, rfl, rfl, rfl, rfl⟩
    · rw [wp_ite, if_neg h1, wp_ite, if_pos hempty, wp_bind, wp_say, wp_pure]
      exact ⟨fun _ => ⟨rfl, rfl⟩, fun h => absurd h h1, rfl, rfl, rfl, rfl⟩
  exact h

/-- C12, instance: the status query prints two spaces and a line break; the
line "1" on standard input is not read. -/
theorem quickCommit_clean_witness :
    TrimSpace ((constEnv (lit "  \n") none StatResult.found).exec
        (startState (lit "/w") [lit "[12:00] Dépôt initialisé"] [lit "1"]).log.length).1 = []
    ∧ (quickCommit (constEnv (lit "  \n") none StatResult.found)
        (startState (lit "/w") [lit "[12:00] Dépôt initialisé"] [lit "1"])).1 = some none
    ∧ (quickCommit (constEnv (lit "  \n") none StatResult.found)
        (startState (lit "/w") [lit "[12:00] Dépôt initialisé"] [lit "1"])).2.stdin = [lit "1"] :=
  ⟨by decide,
   ((quickCommit_clean (constEnv (lit "  \n") none StatResult.found)
      (startState (lit "/w") [lit "[12:00] Dépôt initialisé"] [lit "1"]) (by decide)).1 rfl).1,
   (quickCommit_clean (constEnv (lit "  \n") none StatResult.found)
      (startState (lit "/w") [lit "[12:00] Dépôt initialisé"] [lit "1"]) (by decide)).2.2.1⟩

/-- C12, counterexample to the claim as stated: the status query cannot be
started (git is not installed), so its output is empty and it ends with an
error; `quickCommit` returns that error. -/
theorem quickCommit_status_query_fails :
    TrimSpace ((constEnv [] (some (lit "exec: git: executable file not found in $PATH"))
        StatResult.found).exec (startState (lit "/w") [] []).log.length).1 = []
    ∧ (quickCommit (constEnv [] (some (lit "exec: git: executable file not found in $PATH"))
        StatResult.found) (startState (lit "/w") [] [])).1
      = some (some (lit "exec: git: executable file not found in $PATH")) := by
  decide

/-! ## An empty required input aborts the action -/

theorem Aborted.early (s s1 : State) (e : GoString) (hga : s1.ga = s.ga) (hlog : s1.log = s.log) :
    Aborted s (some (some e)) s1 := by
  refine ⟨⟨e, rfl⟩, hga, ?_⟩
  simp [startedAfter, hlog]

theorem Aborted.afterQuery (s s1 : State) (r : GoError) (hr : r ≠ none) (c : Cmd)
    (hga : s1.ga = s.ga) (hlog : s1.log = s.log ++ [c]) (hc : isStateChanging c = false) :
    Aborted s (some r) s1 := by
  obtain ⟨e, he⟩ := Option.ne_none_iff_exists.mp hr
  refine ⟨⟨e, by rw [he]⟩, hga, ?_⟩
  simp [startedAfter, hlog, hc]

theorem showCurrent_not_changing (d : GoString) :
    isStateChanging { dir := d, name := lit "git", args := [lit "branch", lit "--show-current"] }
      = false := by
  have h : isStateChanging
      { dir := [], name := lit "git", args := [lit "branch", lit "--show-current"] } = false := by
    decide
  exact h

theorem logOneline_not_changing (d : GoString) :
    isStateChanging { dir := d, name := lit "git", args := [lit "log", lit "--oneline", lit "-10"] }
      = false := by
  have h : isStateChanging
      { dir := [], name := lit "git", args := [lit "log", lit "--oneline", lit "-10"] }
        = false := by
    decide
  exact h

theorem createFeatureBranch_aborted (env : Env) (s : State) (hn : nextInput s = []) :
    wp (createFeatureBranch env) (Aborted s) s := by
  have hn1 : TrimSpace (s.stdin.headD []) = [] := hn
  simp only [createFeatureBranch, wp_bind, wp_say, wp_getUserInput, wp_ite, wp_pure]
  rw [if_pos hn1]
  exact Aborted.early _ _ _ rfl rfl

theorem createBugfixBranch_aborted (env : Env) (s : State) (hn : nextInput s = []) :
    wp (createBugfixBranch env) (Aborted s) s := by
  have hn1 : TrimSpace (s.stdin.headD []) = [] := hn
  simp only [createBugfixBranch, wp_bind, wp_say, wp_getUserInput, wp_ite, wp_pure]
  rw [if_pos hn1]
  exact Aborted.early _ _ _ rfl rfl

theorem switchBranch_aborted (env : Env) (name : GoString) (s : State)
    (hn : (if name = [] then nextInput s else name) = []) :
    wp (switchBranch env name) (Aborted s) s := by
  by_cases hname : name = []
  · rw [if_pos hname] at hn
    have hn1 : TrimSpace (s.stdin.headD []) = [] := hn
    simp only [switchBranch, wp_bind, wp_say, wp_getUserInput, wp_ite, wp_pure]
    rw [if_pos hname]
    rw [if_pos hn1]
    exact Aborted.early _ _ _ rfl rfl
  · rw [if_neg hname] at hn
    exact absurd hn hname

theorem deleteBranch_aborted (env : Env) (s : State) (hn : nextInput s = []) :
    wp (deleteBranch env) (Aborted s) s := by
  have hn1 : TrimSpace (s.stdin.headD []) = [] := hn
  simp only [deleteBranch, wp_bind, wp_say, wp_getUserInput]
  rw [wp_ite, if_pos hn1, wp_pure]
  exact Aborted.early _ _ _ rfl rfl

theorem mergeBranch_aborted (env : Env) (s : State) (hn : nextInput s = []) :
    wp (mergeBranch env) (Aborted s) s := by
  have hn1 : TrimSpace (s.stdin.headD []) = [] := hn
  simp only [mergeBranch, wp_bind, wp_say, wp_getUserInput, wp_getCurrentBranch]
  rw [wp_ite, if_pos hn1, wp_pure]
  exact Aborted.afterQuery _ _ _ (Option.some_ne_none _) _ rfl rfl (showCurrent_not_changing _)

theorem showCommitDetails_aborted (env : Env) (s : State) (hn : nextInput s = []) :
    wp (showCommitDetails env) (Aborted s) s := by
  have hn1 : TrimSpace (s.stdin.headD []) = [] := hn
  simp only [showCommitDetails, wp_bind, wp_say, wp_getUserInput]
  rw [wp_ite, if_pos hn1, wp_pure]
  exact Aborted.early _ _ _ rfl rfl

theorem searchInHistory_aborted (env : Env) (s : State) (hn : nextInput s = []) :
    wp (searchInHistory env) (Aborted s) s := by
  have hn1 : TrimSpace (s.stdin.headD []) = [] := hn
  simp only [searchInHistory, wp_bind, wp_say, wp_getUserInput]
  rw [wp_ite, if_pos hn1, wp_pure]
  exact Aborted.early _ _ _ rfl rfl

theorem resetToCommit_aborted (env : Env) (s : State) (hn : secondInput s = []) :
    wp (resetToCommit env) (Aborted s) s := by
  have hn1 : TrimSpace (s.stdin.tail.headD []) = [] := hn
  simp only [resetToCommit, wp_bind, wp_say, wp_runCommand, wp_getUserInput]
  by_cases h1 : (env.exec s.log.length).2 ≠ none
  · rw [wp_ite, if_pos h1, wp_pure]
    exact Aborted.afterQuery _ _ _ h1 _ rfl rfl (logOneline_not_changing _)
  · rw [wp_ite, if_neg h1]
    simp only [wp_bind, wp_say, wp_getUserInput]
    rw [wp_ite, if_pos hn1, wp_pure]
    exact Aborted.afterQuery _ _ _ (Option.some_ne_none _) _ rfl rfl (logOneline_not_changing _)

theorem createBranchFromCommit_aborted (env : Env) (s : State) (hn : nextInput s = []) :
    wp (createBranchFromCommit env) (Aborted s) s := by
  have hn1 : TrimSpace (s.stdin.headD []) = [] := hn
  simp only [createBranchFromCommit, wp_bind, wp_say, wp_runCommand, wp_getUserInput]
  by_cases h1 : (env.exec s.log.length).2 ≠ none
  · rw [wp_ite, if_pos h1, wp_pure]
    exact Aborted.afterQuery _ _ _ h1 _ rfl rfl (logOneline_not_changing _)
  · rw [wp_ite, if_neg h1]
    simp only [wp_bind, wp_say, wp_getUserInput]
    rw [wp_ite, if_pos (Or.inl hn1), wp_pure]
    exact Aborted.afterQuery _ _ _ (Option.some_ne_none _) _ rfl rfl (logOneline_not_changing _)

theorem setWorkingDirectory_aborted (env : Env) (newPath : GoString) (s : State)
    (hn : newPath = []) : wp (setWorkingDirectory env newPath) (Aborted s) s := by
  simp only [setWorkingDirectory]
  rw [wp_ite, if_pos hn, wp_pure]
  exact Aborted.early _ _ _ rfl rfl

theorem changeDirectory_aborted (env : Env) (s : State) (hn : nextInput s = []) :
    wp (changeDirectory env) (Aborted s) s := by
  have hn1 : TrimSpace (s.stdin.headD []) = [] := hn
  simp only [changeDirectory, wp_bind, wp_say, wp_getUserInput, setWorkingDirectory]
  rw [wp_ite, if_pos hn1, wp_pure]
  exact Aborted.early _ _ _ rfl rfl

/-- C13. For every operation that requires a text (feature name, bug
description, branch name to switch to, delete or merge, commit hash for the
details or for a new branch, revision to reset to, search term, new directory),
when that text is empty the operation returns an error, leaves the session
(working directory and history) unchanged and starts no command that changes
the repository. -/
theorem empty_input_aborts (op : Op) (env : Env) (s : State)
    (hempty : op.requiredInput s = some []) :
    (∃ e, (op.run env s).1 = some (some e))
    ∧ (op.run env s).2.ga = s.ga
    ∧ ∀ c ∈ startedAfter s.log.length (op.run env s).2, isStateChanging c = false := by
  cases op with
  | createFeatureBranch => exact createFeatureBranch_aborted env s (Option.some.inj hempty)
  | createBugfixBranch => exact createBugfixBranch_aborted env s (Option.some.inj hempty)
  | switchBranch name => exact switchBranch_aborted env name s (Option.some.inj hempty)
  | deleteBranch => exact deleteBranch_aborted env s (Option.some.inj hempty)
  | mergeBranch => exact mergeBranch_aborted env s (Option.some.inj hempty)
  | showCommitDetails => exact showCommitDetails_aborted env s (Option.some.inj hempty)
  | searchInHistory => exact searchInHistory_aborted env s (Option.some.inj hempty)
  | resetToCommit => exact resetToCommit_aborted env s (Option.some.inj hempty)
  | createBranchFromCommit =>
    exact createBranchFromCommit_aborted env s (Option.some.inj hempty)
  | changeDirectory => exact changeDirectory_aborted env s (Option.some.inj hempty)
  | setWorkingDirectory newPath =>
    exact setWorkingDirectory_aborted env newPath s (Option.some.inj hempty)
  | quickCommit => cases hempty
  | intelligentBranching => cases hempty
  | showHistory => cases hempty
  | interactiveLog => cases hempty
  | projectInsights => cases hempty
  | smartStatus => cases hempty
  | initRepo => cases hempty
  | autoSync => cases hempty

/-- C13, instance: `resetToCommit` with the kind "3" and a revision of two
spaces returns the error "hash requis" and leaves the session unchanged. -/
theorem empty_input_aborts_witness :
    Op.resetToCommit.requiredInput (startState (lit "/w") [lit "[12:00] x"] [lit "3", lit "  "])
        = some []
    ∧ (Op.resetToCommit.run (constEnv (lit "abc123 first\n") none StatResult.found)
        (startState (lit "/w") [lit "[12:00] x"] [lit "3", lit "  "])).1
        = some (some (lit "hash requis"))
    ∧ (Op.resetToCommit.run (constEnv (lit "abc123 first\n") none StatResult.found)
        (startState (lit "/w") [lit "[12:00] x"] [lit "3", lit "  "])).2.ga
        = (startState (lit "/w") [lit "[12:00] x"] [lit "3", lit "  "]).ga :=
  ⟨by decide, by decide,
   (empty_input_aborts Op.resetToCommit (constEnv (lit "abc123 first\n") none StatResult.found)
      (startState (lit "/w") [lit "[12:00] x"] [lit "3", lit "  "]) (by decide)).2.1⟩

/-! ## The classes and styles of diff lines -/

theorem head_of_hasPrefix (line : GoString) (c : UInt8) (p : GoString)
    (h : HasPrefix line (c :: p) = true) : line.head? = some c := by
  cases line with
  | nil => simp [HasPrefix, List.isPrefixOf] at h
  | cons b rest =>
    simp only [HasPrefix, List.isPrefixOf, Bool.and_eq_true, beq_iff_eq] at h
    simp [h.1]

theorem hasPrefix_of_longer (line : GoString) (p q : GoString)
    (h : HasPrefix line (p ++ q) = true) : HasPrefix line p = true := by
  simp only [HasPrefix, List.isPrefixOf_iff_prefix] at h ⊢
  exact List.IsPrefix.trans (List.prefix_append p q) h

/-- C14 (as amended). `displayColoredDiff` returns and prints, for every line
of the diff text in order, that line in the style of its class.  Every line is
in exactly one of the seven classes, settled by its prefix alone: file header
("diff --git", "+++" or "---"), index line ("index "), hunk header ("@@"),
added line ("+" but not "+++"), removed line ("-" but not "---"), blank line
(empty), context line (any other).  The styles are bold for a "diff --git"
header, cyan for a "+++" or "---" header, an index line and a hunk header,
green for an added line, red for a removed line and none for context and
blank lines. -/
theorem displayColoredDiff_classes (diffText : GoString) (s : State) :
    (displayColoredDiff diffText s).1 = some ()
    ∧ (displayColoredDiff diffText s).2.out = s.out ++ (Split diffText 10).map colorDiffLine
    ∧ ∀ line : GoString,
        (diffClass line = DiffClass.fileHeader ↔
            HasPrefix line (lit "diff --git") = true ∨ HasPrefix line (lit "+++") = true
              ∨ HasPrefix line (lit "---") = true)
        ∧ (diffClass line = DiffClass.indexLine ↔ HasPrefix line (lit "index ") = true)
        ∧ (diffClass line = DiffClass.hunkHeader ↔ HasPrefix line (lit "@@") = true)
        ∧ (diffClass line = DiffClass.addedLine ↔
            HasPrefix line (lit "+") = true ∧ HasPrefix line (lit "+++") = false)
        ∧ (diffClass line = DiffClass.removedLine ↔
            HasPrefix line (lit "-") = true ∧ HasPrefix line (lit "---") = false)
        ∧ (diffClass line = DiffClass.blankLine ↔ line = [])
        ∧ (diffClass line = DiffClass.contextLine ↔
            line ≠ [] ∧ HasPrefix line (lit "diff --git") = false
              ∧ HasPrefix line (lit "index ") = false ∧ HasPrefix line (lit "@@") = false
              ∧ HasPrefix line (lit "+") = false ∧ HasPrefix line (lit "-") = false)
        ∧ colorDiffLine line
            = (match diffClass line with
                | DiffClass.fileHeader =>
                  (if HasPrefix line (lit "diff --git") then bold line else cyan line)
                    ++ lit "\n"
                | DiffClass.indexLine => cyan line ++ lit "\n"
                | DiffClass.hunkHeader => cyan line ++ lit "\n"
                | DiffClass.addedLine => green line ++ lit "\n"
                | DiffClass.removedLine => red line ++ lit "\n"
                | DiffClass.contextLine => line ++ lit "\n"
                | DiffClass.blankLine => lit "\n") := by
  refine ⟨rfl, rfl, fun line => ?_⟩
  by_cases he : line = []
  · subst he
    decide
  · have fd : HasPrefix line (lit "diff --git") = true → line.head? = some 100 :=
      head_of_hasPrefix line 100 (lit "iff --git")
    have fi : HasPrefix line (lit "index ") = true → line.head? = some 105 :=
      head_of_hasPrefix line 105 (lit "ndex ")
    have fa : HasPrefix line (lit "@@") = true → line.head? = some 64 :=
      head_of_hasPrefix line 64 (lit "@")
    have fp : HasPrefix line (lit "+") = true → line.head? = some 43 :=
      head_of_hasPrefix line 43 []
    have fm : HasPrefix line (lit "-") = true → line.head? = some 45 :=
      head_of_hasPrefix line 45 []
    have fp3 : HasPrefix line (lit "+++") = true → HasPrefix line (lit "+") = true :=
      hasPrefix_of_longer line (lit "+") (lit "++")
    have fm3 : HasPrefix line (lit "---") = true → HasPrefix line (lit "-") = true :=
      hasPrefix_of_longer line (lit "-") (lit "--")
    unfold diffClass colorDiffLine
    generalize HasPrefix line (lit "diff --git") = d at *
    generalize HasPrefix line (lit "index ") = i at *
    generalize HasPrefix line (lit "@@") = a at *
    generalize HasPrefix line (lit "+++") = p3 at *
    generalize HasPrefix line (lit "---") = m3 at *
    generalize HasPrefix line (lit "+") = p at *
    generalize HasPrefix line (lit "-") = m at *
    generalize line.head? = k at *
    cases d <;> cases i <;> cases a <;> cases p <;> cases m <;> cases p3 <;> cases m3 <;>
      simp_all

/-- C14, counterexample to the claim as stated: an index line and a hunk
header are of two classes and are printed in the same style, cyan (as is a
"+++" file header, while a "diff --git" file header is bold). -/
theorem index_and_hunk_share_style :
    diffClass (lit "index 83db48f..bf269f4 100644") = DiffClass.indexLine
    ∧ diffClass (lit "@@ -1,3 +1,4 @@") = DiffClass.hunkHeader
    ∧ colorDiffLine (lit "index 83db48f..bf269f4 100644")
        = ColorCyan ++ lit "index 83db48f..bf269f4 100644" ++ ColorReset ++ lit "\n"
    ∧ colorDiffLine (lit "@@ -1,3 +1,4 @@")
        = ColorCyan ++ lit "@@ -1,3 +1,4 @@" ++ ColorReset ++ lit "\n"
    ∧ colorDiffLine (lit "+++ b/main.go")
        = ColorCyan ++ lit "+++ b/main.go" ++ ColorReset ++ lit "\n"
    ∧ colorDiffLine (lit "diff --git a/main.go b/main.go")
        = ColorBold ++ lit "diff --git a/main.go b/main.go" ++ ColorReset ++ lit "\n" := by
  decide

end GitCtrl
